import Mathlib

/-!
Verification development for the resource-provider accounting engine of
`nova/objects/resource_provider.py` (cdent/nova).

The storage layer is shallowly embedded: a `State` holds the rows of the
five tables touched by the module (resource_providers, inventories,
allocations, aggregates, resource_provider_aggregates) together with the
id sequence.  Each Python operation becomes a pure function
`State → Except Err State` (a raised exception is `Except.error`); the
`writer` transaction wrapper of the source is modelled by `applyOp`,
which keeps the pre-call state whenever the operation errors (rollback,
no partial writes become visible).

Python integers are `Int`; the `allocation_ratio` float field is
modelled as `ℚ` (the values exercised here are exactly representable, and
none of the claims is about binary rounding).  Python `int()` truncation
toward zero is `pyInt`.
-/

/-- Modelled from the spec: the ResourceClass registry
(`nova/objects/fields.py` is not under src/) is a fixed enumeration
mapping symbolic resource-class names to stable small integer indices
(`DISK_GB ↔ 2` per the repository's unit-test constants).  Resource
classes are represented throughout by their integer index. -/
def RC_VCPU : Nat := 0

/-- Index of the MEMORY_MB resource class. -/
def RC_MEMORY_MB : Nat := 1

/-- Index of the DISK_GB resource class. -/
def RC_DISK_GB : Nat := 2

/-- Index of the IPV4_ADDRESS resource class. -/
def RC_IPV4_ADDRESS : Nat := 9

/-- A row of the resource_providers table. -/
structure RpRow where
  id : Nat
  uuid : String
  name : Option String
  deriving DecidableEq, Repr

/-- A row of the inventories table: capacity parameters for one
(provider, resource class) pair. -/
structure InvRow where
  id : Nat
  resource_provider_id : Nat
  resource_class_id : Nat
  total : Int
  reserved : Int
  min_unit : Int
  max_unit : Int
  step_size : Int
  allocation_ratio : ℚ
  deriving DecidableEq, Repr

/-- A row of the allocations table: a claim of `used` units of one
resource class of one provider by a consumer. -/
structure AllocRow where
  id : Nat
  resource_provider_id : Nat
  resource_class_id : Nat
  consumer_id : String
  used : Int
  deriving DecidableEq, Repr

/-- A row of the aggregates table (external grouping-tag collaborator;
only its primary key matters to this module). -/
structure AggRow where
  id : Nat
  name : String
  deriving DecidableEq, Repr

/-- A row of the resource_provider_aggregates association table. -/
structure RpaRow where
  resource_provider_id : Nat
  aggregate_id : Nat
  deriving DecidableEq, Repr

/-- The storage state: the five tables and the id sequence.  A single
sequence serves all tables (each table only needs its ids distinct). -/
structure State where
  providers : List RpRow
  inventories : List InvRow
  allocations : List AllocRow
  aggregates : List AggRow
  rp_aggregates : List RpaRow
  nextId : Nat
  deriving DecidableEq, Repr

/-- The empty database. -/
def State.empty : State := ⟨[], [], [], [], [], 1⟩

/-- The in-memory `ResourceUse` object: a read-only usage summary for one
resource class of a provider (also used as the "desired descriptor" input
of the resource-set save). -/
structure ResourceUse where
  resource_class : Nat
  total : Int
  reserved : Int
  min_unit : Int
  max_unit : Int
  step_size : Int
  allocation_ratio : ℚ
  used : Int
  deriving DecidableEq, Repr

/-- Subtraction of rationals written through `mkRat`, which the kernel
evaluates (`Rat.sub` itself is sealed); equal to `-` by `ratSub_eq`. -/
def ratSub (a b : ℚ) : ℚ := mkRat (a.num * b.den - b.num * a.den) (a.den * b.den)

theorem ratSub_eq (a b : ℚ) : ratSub a b = a - b := (Rat.sub_def' a b).symm

/-- Multiplication of rationals written through `mkRat`; equal to `*` by
`ratMul_eq`. -/
def ratMul (a b : ℚ) : ℚ := mkRat (a.num * b.num) (a.den * b.den)

theorem ratMul_eq (a b : ℚ) : ratMul a b = a * b := by
  unfold ratMul
  rw [Rat.mul_def, Rat.normalize_eq_mkRat]

/-- Python `int()` applied to an exact rational: truncation toward zero. -/
def pyInt (q : ℚ) : Int := Int.tdiv q.num q.den

/-- `ResourceUse.available`:
`int(((self.total - self.reserved) * self.allocation_ratio) - self.used)`.
(Arithmetic is written with the kernel-computable core `Rat` operations;
`ResourceUse.available_eq` states the same formula with the standard
operators.) -/
def ResourceUse.available (r : ResourceUse) : Int :=
  pyInt (ratSub (ratMul (ratSub (r.total : ℚ) (r.reserved : ℚ))
    r.allocation_ratio) (r.used : ℚ))

theorem ResourceUse.available_eq (r : ResourceUse) :
    r.available =
      pyInt (((r.total : ℚ) - r.reserved) * r.allocation_ratio - r.used) := by
  unfold ResourceUse.available
  rw [ratSub_eq, ratMul_eq, ratSub_eq]

/-- The raised errors of the module.  `ObjectActionError` reasons are kept
as distinct constructors so that the failures stay distinguishable. -/
inductive Err where
  | alreadyCreated
  | uuidRequired
  | duplicateProvider        -- create: 'duplicate resource provider'
  | duplicateAggregate       -- 'aggregate already associated'
  | capacityMismatch (rc : Nat)     -- save: 'resource capacity mismatch for %s'
  | classHasAllocations (rc : Nat)  -- save: 'resource class %s has allocations'
  | notFound                 -- exception.NotFound
  | inUse                    -- destroy: 'resources still in use'
  | notCreated               -- Inventory.save: 'not created'
  | resourceProviderRequired
  | resourceClassRequired
  | dbDuplicateEntry         -- an uncaught DBDuplicateEntry
  | keyError                 -- an uncaught Python KeyError
  deriving DecidableEq, Repr

/-! ## Derived usage view (`ResourceProvider._get_resource_data`) -/

/-- Sum of `used` over the Allocation rows of one (provider, class) pair. -/
def sumUsed (st : State) (pid rc : Nat) : Int :=
  ((st.allocations.filter
      (fun a => a.resource_provider_id == pid && a.resource_class_id == rc)).map
    (fun a => a.used)).sum

/-- The Inventory rows of one provider, in table order. -/
def rpInventories (st : State) (pid : Nat) : List InvRow :=
  st.inventories.filter (fun i => i.resource_provider_id == pid)

/-- The Allocation rows matching one Inventory row's (provider, class)
pair: the ON condition of the outer join in `_get_resource_data`. -/
def matchingAllocs (st : State) (inv : InvRow) : List AllocRow :=
  st.allocations.filter
    (fun a => a.resource_provider_id == inv.resource_provider_id &&
              a.resource_class_id == inv.resource_class_id)

/-- The rows one inventory row contributes to the LEFT OUTER JOIN of
inventories with allocations: one row per matching allocation, or a
single row with a NULL (here `none`) allocation when there is none. -/
def invBlock (st : State) (inv : InvRow) : List (InvRow × Option AllocRow) :=
  match matchingAllocs st inv with
  | [] => [(inv, none)]
  | allocs => allocs.map (fun a => (inv, some a))

/-- The row set produced by the LEFT OUTER JOIN of inventories with
allocations in `_get_resource_data`. -/
def joinedRows (st : State) (pid : Nat) : List (InvRow × Option AllocRow) :=
  (rpInventories st pid).flatMap (invBlock st)

/-- Helper for `firstKeys`: keep the keys not seen yet, in order. -/
def firstKeysAux : List Nat → List Nat → List Nat
  | _, [] => []
  | seen, k :: ks =>
      if k ∈ seen then firstKeysAux seen ks
      else k :: firstKeysAux (k :: seen) ks

/-- First occurrence of each key, in order: the group keys of a SQL
GROUP BY over the joined row list. -/
def firstKeys (l : List Nat) : List Nat := firstKeysAux [] l

/-- GROUP the joined rows BY resource_class_id: one `ResourceUse` per
group key, `used` the coalesced sum of the group's allocation `used`
values, the capacity columns copied from the group's inventory row (the
query selects bare inventory columns under GROUP BY; the first row of
the group is taken, which is the only row whenever the
(provider, class) pairs are unique). -/
def buildRU (rows : List (InvRow × Option AllocRow)) (rc : Nat) : ResourceUse :=
  let grp := rows.filter (fun r => r.1.resource_class_id == rc)
  let inv := (grp.head?.map Prod.fst).getD ⟨0, 0, rc, 0, 0, 0, 0, 0, 0⟩
  { resource_class := rc
    total := inv.total
    reserved := inv.reserved
    min_unit := inv.min_unit
    max_unit := inv.max_unit
    step_size := inv.step_size
    allocation_ratio := inv.allocation_ratio
    used := (grp.map (fun r => (r.2.map AllocRow.used).getD 0)).sum }

def groupedData (rows : List (InvRow × Option AllocRow)) : List ResourceUse :=
  (firstKeys (rows.map (fun r => r.1.resource_class_id))).map (buildRU rows)

/-- `ResourceProvider._get_resource_data`: the grouped outer join of the
provider's inventory rows with their allocations. -/
def get_resource_data (st : State) (pid : Nat) : List ResourceUse :=
  groupedData (joinedRows st pid)

/-- The usage summary of one inventory row, as the spec's words describe
it: capacity fields copied, `used` the sum of the matching allocations. -/
def summaryOfInv (st : State) (inv : InvRow) : ResourceUse :=
  { resource_class := inv.resource_class_id
    total := inv.total
    reserved := inv.reserved
    min_unit := inv.min_unit
    max_unit := inv.max_unit
    step_size := inv.step_size
    allocation_ratio := inv.allocation_ratio
    used := sumUsed st inv.resource_provider_id inv.resource_class_id }

/-- Effective capacity of a desired descriptor:
`(total - reserved) * allocation_ratio` (core `Rat` operations;
`effCap_eq` restates it with the standard operators). -/
def effCap (d : ResourceUse) : ℚ :=
  ratMul (ratSub (d.total : ℚ) (d.reserved : ℚ)) d.allocation_ratio

/-- The strict comparison used by the reconciliation check, as a
proposition: `Rat.blt a b` is the `<` of `ℚ`. -/
theorem rat_blt_iff (a b : ℚ) : Rat.blt a b = true ↔ a < b := Iff.rfl

theorem effCap_eq (d : ResourceUse) :
    effCap d = ((d.total : ℚ) - (d.reserved : ℚ)) * d.allocation_ratio := by
  unfold effCap
  rw [ratMul_eq, ratSub_eq]

/-- Effective capacity of an inventory row. -/
def effCapInv (i : InvRow) : ℚ :=
  ratMul (ratSub (i.total : ℚ) (i.reserved : ℚ)) i.allocation_ratio

theorem effCapInv_eq (i : InvRow) :
    effCapInv i =
      ((i.total : ℚ) - (i.reserved : ℚ)) * i.allocation_ratio := by
  unfold effCapInv
  rw [ratMul_eq, ratSub_eq]

/-- The provider has an inventory row of the given resource class. -/
def hasInvClass (st : State) (pid rc : Nat) : Prop :=
  ∃ i ∈ st.inventories,
    i.resource_provider_id = pid ∧ i.resource_class_id = rc

instance (st : State) (pid rc : Nat) : Decidable (hasInvClass st pid rc) := by
  unfold hasInvClass; infer_instance

/-- Well-formedness of the inventories table: unique ids, unique
(provider, resource class) pairs, ids below the sequence value. -/
def InvWF (st : State) : Prop :=
  (st.inventories.map InvRow.id).Nodup ∧
  (st.inventories.map
    (fun i => (i.resource_provider_id, i.resource_class_id))).Nodup ∧
  (∀ i ∈ st.inventories, i.id < st.nextId)

instance (st : State) : Decidable (InvWF st) := by
  unfold InvWF; infer_instance

/-! ## ResourceProvider operations -/

/-- `filter_by(uuid=uuid).first()` on the resource_providers table. -/
def providerByUuid (st : State) (uuid : String) : Option RpRow :=
  st.providers.find? (fun p => p.uuid == uuid)

/-- `ResourceProvider.get_by_uuid` / `_get_rp_by_uuid_from_db`. -/
def get_by_uuid (st : State) (uuid : String) : Except Err RpRow :=
  match providerByUuid st uuid with
  | none => .error .notFound
  | some rp => .ok rp

/-- The association pair of a resource_provider_aggregates row. -/
def rpaPair (r : RpaRow) : Nat × Nat := (r.resource_provider_id, r.aggregate_id)

/-- `ResourceProvider.create` (with optionally staged grouping tags, by
aggregate id): inserts the provider row, then stages the association
rows, translating the storage duplicate error by which constraint fired
(uuid column → 'duplicate resource provider'; aggregate_id column →
'aggregate already associated').  Returns the new state and the created
row (the object after `_from_db_object`).

Modelled from the spec: the unique constraints themselves live in
`nova/db/sqlalchemy/models.py`, which is not under src/; per the spec the
provider uuid is globally unique and the association table is unique per
(provider, aggregate) pair. -/
def create_resource_provider (st : State) (uuid : String) (name : Option String)
    (aggs : List Nat) : Except Err (State × RpRow) :=
  if st.providers.any (fun p => p.uuid == uuid) then .error .duplicateProvider
  else
    let rp : RpRow := ⟨st.nextId, uuid, name⟩
    let st1 : State := { st with providers := st.providers ++ [rp],
                                 nextId := st.nextId + 1 }
    let newPairs : List RpaRow := aggs.map (fun a => ⟨rp.id, a⟩)
    if (newPairs.map rpaPair).Nodup ∧
        ∀ r ∈ newPairs, rpaPair r ∉ st1.rp_aggregates.map rpaPair then
      .ok ({ st1 with rp_aggregates := st1.rp_aggregates ++ newPairs }, rp)
    else .error .duplicateAggregate

/-- `ResourceProvider._update_in_db`.  The source reads
`filter_by(id=id)`: the function's parameter is `id_`, so the filter
compares the id column with the Python builtin function `id`, which is
not any row's integer id; the update matches no row and `NotFound` is
raised whatever `id_` is.  (The method is additionally invoked bound, so
the context argument is misaligned; under every reading no row is
updated and the call raises.) -/
def update_in_db (st : State) (id_ : Nat) (newName : String) : Except Err State :=
  let matched : List RpRow := st.providers.filter (fun _p => false)
  if matched.length == 0 then .error .notFound
  else
    let updated := st.providers.map (fun p =>
      if p ∈ matched then { p with name := some newName } else p)
    .ok { st with providers := updated }

/-- `ResourceProvider.save` restricted to a name change. -/
def save_name (st : State) (pid : Nat) (newName : String) : Except Err State :=
  update_in_db st pid newName

/-- `ResourceProvider._destroy`: usage check over the derived resource
view, then delete the provider row (`NotFound` when nothing was
deleted), then delete the association and inventory rows.  Allocation
rows are not touched. -/
def destroy_provider (st : State) (pid : Nat) : Except Err State :=
  let resources := get_resource_data st pid
  if resources.any (fun r => decide (r.used > 0)) then .error .inUse
  else
    let remaining := st.providers.filter (fun p => p.id != pid)
    if remaining.length == st.providers.length then .error .notFound
    else .ok { st with
      providers := remaining,
      rp_aggregates := st.rp_aggregates.filter (fun r => r.resource_provider_id != pid),
      inventories := st.inventories.filter (fun i => i.resource_provider_id != pid) }

/-! ## Inventory and Allocation operations -/

/-- `Inventory.create` / `_create_inventory_in_db`: insert a row with a
fresh id.

Modelled from the spec: the (provider, resource class) pair of an
inventory row is unique (`models.py` is not under src/); a violating
insert surfaces the storage duplicate error, uncaught on this path. -/
def create_inventory (st : State) (pid rc : Nat)
    (total reserved min_unit max_unit step_size : Int) (ratio : ℚ) :
    Except Err (State × InvRow) :=
  if st.inventories.any (fun i =>
      i.resource_provider_id == pid && i.resource_class_id == rc) then
    .error .dbDuplicateEntry
  else
    let row : InvRow := ⟨st.nextId, pid, rc, total, reserved, min_unit,
                         max_unit, step_size, ratio⟩
    .ok ({ st with inventories := st.inventories ++ [row],
                   nextId := st.nextId + 1 }, row)

/-- `Inventory.save` / `_update_inventory_in_db`: update the capacity
fields of the row with the given id; `NotFound` when no row matches. -/
def update_inventory_in_db (st : State) (iid : Nat)
    (total reserved min_unit max_unit step_size : Int) (ratio : ℚ) :
    Except Err State :=
  if st.inventories.any (fun i => i.id == iid) then
    .ok { st with inventories := st.inventories.map (fun i =>
      if i.id == iid then
        { i with total := total, reserved := reserved, min_unit := min_unit,
                 max_unit := max_unit, step_size := step_size,
                 allocation_ratio := ratio }
      else i) }
  else .error .notFound

/-- `Inventory.destroy` / `_destroy_in_db`: delete by id, `NotFound`
when no row matches. -/
def destroy_inventory (st : State) (iid : Nat) : Except Err State :=
  if st.inventories.any (fun i => i.id == iid) then
    .ok { st with inventories := st.inventories.filter (fun i => i.id != iid) }
  else .error .notFound

/-- `Allocation.create` / `_create_in_db`: insert a row with a fresh id.
The source performs no capacity check on this path. -/
def create_allocation (st : State) (pid rc : Nat) (consumer : String)
    (used : Int) : Except Err (State × AllocRow) :=
  let row : AllocRow := ⟨st.nextId, pid, rc, consumer, used⟩
  .ok ({ st with allocations := st.allocations ++ [row],
                 nextId := st.nextId + 1 }, row)

/-- `Allocation.destroy` / `_destroy`: delete by id, `NotFound` when no
row matches. -/
def destroy_allocation (st : State) (aid : Nat) : Except Err State :=
  if st.allocations.any (fun a => a.id == aid) then
    .ok { st with allocations := st.allocations.filter (fun a => a.id != aid) }
  else .error .notFound

/-! ## Resource-set reconciliation (`ResourceProvider._update_resources`) -/

/-- The setattr loop of `_update_resources`: copy every `ResourceUse`
field except `used`, `resource_provider` and `resource_class` onto an
inventory row. -/
def setInvFields (d : ResourceUse) (i : InvRow) : InvRow :=
  { i with total := d.total, reserved := d.reserved, min_unit := d.min_unit,
           max_unit := d.max_unit, step_size := d.step_size,
           allocation_ratio := d.allocation_ratio }

/-- `create_inventory` applied to a desired descriptor (the fresh
`Inventory(...)` + setattr + `create()` path), keeping only the state. -/
def create_inventory_row (st : State) (pid : Nat) (d : ResourceUse) :
    Except Err State :=
  (create_inventory st pid d.resource_class d.total d.reserved d.min_unit
    d.max_unit d.step_size d.allocation_ratio).map Prod.fst

/-- The trailing loop of `_update_resources`: every resource class left
in the existing-resource map is being dropped — abort when it still has
usage, otherwise destroy its inventory row (looked up in the pre-read
inventory map; a missing entry would be an uncaught Python KeyError). -/
def drop_remaining (st : State) (er : List ResourceUse) (ei : List InvRow) :
    Except Err State :=
  match er with
  | [] => .ok st
  | r :: rest =>
      if decide (r.used > 0) then .error (.classHasAllocations r.resource_class)
      else
        match ei.find? (fun i => i.resource_class_id == r.resource_class) with
        | none => .error .keyError
        | some inv =>
            match destroy_inventory st inv.id with
            | .ok st' => drop_remaining st' rest ei
            | .error e => .error e

/-- `ResourceProvider._update_resources`: walk the desired descriptors in
order against the pre-read existing-resource map `er` (a class-keyed
dict, modelled in insertion order) and the pre-read
`existing_inventories` dict `ei`, a lookup list on which `find?` by
class plays the dict's `[klass]` access (the caller passes the reversed
storage table, so the last row of a class wins, as in the dict
comprehension); then drop whatever classes remain in `er`. -/
def update_resources (pid : Nat) :
    State → List ResourceUse → List ResourceUse → List InvRow → Except Err State
  | st, [], er, ei => drop_remaining st er ei
  | st, d :: ds, er, ei =>
      match er.find? (fun r => r.resource_class == d.resource_class) with
      | some cur =>
          if Rat.blt (effCap d) ((cur.used : Int) : ℚ) then
            .error (.capacityMismatch d.resource_class)
          else
            let next := fun (st' : State) =>
              update_resources pid st' ds
                (er.filter (fun r => r.resource_class != d.resource_class)) ei
            match ei.find? (fun i => i.resource_class_id == d.resource_class) with
            | some inv =>
                -- existing Inventory object: `inventory.save()`, an UPDATE
                -- by the pre-read row's id
                match update_inventory_in_db st inv.id d.total d.reserved
                    d.min_unit d.max_unit d.step_size d.allocation_ratio with
                | .ok st' => next st'
                | .error e => .error e
            | none =>
                -- fresh Inventory object: `save()` raises 'not created',
                -- which is caught, and `create()` runs
                match create_inventory_row st pid d with
                | .ok st' => next st'
                | .error e => .error e
      | none =>
          match create_inventory_row st pid d with
          | .ok st' => update_resources pid st' ds er ei
          | .error e => .error e

/-- `ResourceProvider.save` restricted to a resources update: pre-read
the current resource summaries (via `get_by_uuid(uuid).resources`) and
the `existing_inventories` dict, then run `_update_resources` inside the
writer transaction.  `InventoryList._get_all_by_resource_provider`
filters `ResourceProvider.uuid == rp_uuid` without joining that table to
Inventory (the `joinedload` alias is never targeted by the filter), so
once the uuid exists — which `get_by_uuid` has already established — the
cross join returns every Inventory row in storage.  The dict
comprehension keyed on resource class keeps, for each class, the last
row of the result, and is only ever read by `existing_inventories[c]`
lookups; that lookup is `(st.inventories.reverse).find?` on the class,
which is the `ei` this function passes down.  Reconciliation can
therefore update or destroy another provider's row of the same class. -/
def save_resources (st : State) (uuid : String) (desired : List ResourceUse) :
    Except Err State :=
  match providerByUuid st uuid with
  | none => .error .notFound
  | some rp =>
      update_resources rp.id st desired (get_resource_data st rp.id)
        st.inventories.reverse

/-! ## Well-formed storage states -/

/-- Structural well-formedness of a storage state: ids are unique and
below the sequence value, and inventories are unique per
(provider, resource class) pair (the schema constraints). -/
def WF (st : State) : Prop :=
  InvWF st ∧
  ((st.providers.map RpRow.id).Nodup ∧
   ((∀ p ∈ st.providers, p.id < st.nextId) ∧
    ((st.allocations.map AllocRow.id).Nodup ∧
     (∀ a ∈ st.allocations, a.id < st.nextId))))

/-! ## The operation language -/

/-- One top-level engine operation (a create/save/destroy call on a
ResourceProvider, Inventory or Allocation object). -/
inductive Op where
  | createProvider (uuid : String) (name : Option String) (aggs : List Nat)
  | saveName (pid : Nat) (newName : String)
  | saveResources (uuid : String) (desired : List ResourceUse)
  | destroyProvider (pid : Nat)
  | createInventory (pid rc : Nat)
      (total reserved min_unit max_unit step_size : Int) (ratio : ℚ)
  | saveInventory (iid : Nat)
      (total reserved min_unit max_unit step_size : Int) (ratio : ℚ)
  | destroyInventory (iid : Nat)
  | createAllocation (pid rc : Nat) (consumer : String) (used : Int)
  | destroyAllocation (aid : Nat)
  deriving DecidableEq, Repr

/-- Run one operation, as the raising Python call. -/
def applyExcept (st : State) : Op → Except Err State
  | .createProvider uuid name aggs =>
      (create_resource_provider st uuid name aggs).map Prod.fst
  | .saveName pid newName => save_name st pid newName
  | .saveResources uuid desired => save_resources st uuid desired
  | .destroyProvider pid => destroy_provider st pid
  | .createInventory pid rc total reserved min_unit max_unit step_size ratio =>
      (create_inventory st pid rc total reserved min_unit max_unit step_size
        ratio).map Prod.fst
  | .saveInventory iid total reserved min_unit max_unit step_size ratio =>
      update_inventory_in_db st iid total reserved min_unit max_unit step_size
        ratio
  | .destroyInventory iid => destroy_inventory st iid
  | .createAllocation pid rc consumer used =>
      (create_allocation st pid rc consumer used).map Prod.fst
  | .destroyAllocation aid => destroy_allocation st aid

/-- Run one operation inside its writer transaction: an error rolls the
state back (no partial writes are visible). -/
def applyOp (st : State) (op : Op) : State × Option Err :=
  match applyExcept st op with
  | .ok st' => (st', none)
  | .error e => (st, some e)

/-- Run a sequence of operations, stopping at the first error. -/
def runOps : State → List Op → Except Err State
  | st, [] => .ok st
  | st, op :: ops =>
      match applyExcept st op with
      | .ok st' => runOps st' ops
      | .error e => .error e

/-- The spec's capacity invariant at one state: for every
(provider, resource class) with an inventory row, the summed allocation
usage is within the row's effective capacity. -/
def capacityInvariant (st : State) : Prop :=
  ∀ inv ∈ st.inventories,
    ((sumUsed st inv.resource_provider_id inv.resource_class_id : ℚ) ≤
      effCapInv inv)

/-- The violation condition checked by `_update_resources` for a desired
descriptor: the class already has a resource summary (an inventory row)
and its current usage exceeds the descriptor's effective capacity. -/
def violatesDesired (st : State) (pid : Nat) (d : ResourceUse) : Prop :=
  hasInvClass st pid d.resource_class ∧
  ((sumUsed st pid d.resource_class : ℚ) > effCap d)

instance (st : State) : Decidable (capacityInvariant st) := by
  unfold capacityInvariant; infer_instance

instance (st : State) : Decidable (WF st) := by
  unfold WF; infer_instance

instance (st : State) (pid : Nat) (d : ResourceUse) :
    Decidable (violatesDesired st pid d) := by
  unfold violatesDesired; infer_instance

/-! ## The derived view as one summary per inventory row -/

theorem invBlock_fst (st : State) (inv : InvRow) :
    ∀ r ∈ invBlock st inv, r.1 = inv := by
  intro r hr
  unfold invBlock at hr
  cases h : matchingAllocs st inv with
  | nil => rw [h] at hr; simp only [List.mem_singleton] at hr; rw [hr]
  | cons a as =>
      rw [h] at hr
      simp only [List.mem_map] at hr
      obtain ⟨x, _, rfl⟩ := hr
      rfl

theorem invBlock_ne_nil (st : State) (inv : InvRow) : invBlock st inv ≠ [] := by
  unfold invBlock
  cases h : matchingAllocs st inv <;> simp

theorem sumUsed_eq_matching (st : State) (inv : InvRow) :
    sumUsed st inv.resource_provider_id inv.resource_class_id =
      ((matchingAllocs st inv).map AllocRow.used).sum := rfl

theorem invBlock_used_sum (st : State) (inv : InvRow) :
    ((invBlock st inv).map (fun r => (r.2.map AllocRow.used).getD 0)).sum =
      sumUsed st inv.resource_provider_id inv.resource_class_id := by
  rw [sumUsed_eq_matching]
  unfold invBlock
  cases h : matchingAllocs st inv with
  | nil => simp
  | cons a as => simp [List.map_map, Function.comp_def]

theorem fka_cons (seen : List Nat) (k : Nat) (ks : List Nat) :
    firstKeysAux seen (k :: ks) =
      if k ∈ seen then firstKeysAux seen ks
      else k :: firstKeysAux (k :: seen) ks := rfl

theorem fka_mem {seen l : List Nat} {x : Nat} (h : x ∈ firstKeysAux seen l) :
    x ∈ l := by
  induction l generalizing seen with
  | nil => simp [firstKeysAux] at h
  | cons k ks ih =>
      rw [fka_cons] at h
      by_cases hk : k ∈ seen
      · simp only [if_pos hk] at h
        exact List.mem_cons_of_mem _ (ih h)
      · simp only [if_neg hk, List.mem_cons] at h
        cases h with
        | inl h => exact h ▸ List.mem_cons_self _ _
        | inr h => exact List.mem_cons_of_mem _ (ih h)

theorem fka_all_mem {l : List Nat} {seen : List Nat}
    (h : ∀ k ∈ l, k ∈ seen) (tail : List Nat) :
    firstKeysAux seen (l ++ tail) = firstKeysAux seen tail := by
  induction l with
  | nil => rfl
  | cons k ks ih =>
      have hk : k ∈ seen := h k (List.mem_cons_self _ _)
      simp only [List.cons_append]
      rw [fka_cons, if_pos hk]
      exact ih (fun x hx => h x (List.mem_cons_of_mem _ hx))

theorem fka_all_eq {l : List Nat} {c : Nat} (h : ∀ k ∈ l, k = c)
    (hne : l ≠ []) {seen : List Nat} (hc : c ∉ seen) (tail : List Nat) :
    firstKeysAux seen (l ++ tail) = c :: firstKeysAux (c :: seen) tail := by
  cases l with
  | nil => exact absurd rfl hne
  | cons k ks =>
      have hk : k = c := h k (List.mem_cons_self _ _)
      subst hk
      simp only [List.cons_append]
      rw [fka_cons, if_neg hc]
      congr 1
      refine fka_all_mem (fun x hx => ?_) tail
      rw [h x (List.mem_cons_of_mem _ hx)]
      exact List.mem_cons_self _ _

theorem filter_invBlock_self (st : State) (inv : InvRow) :
    (invBlock st inv).filter
        (fun r => r.1.resource_class_id == inv.resource_class_id) =
      invBlock st inv := by
  apply List.filter_eq_self.mpr
  intro r hr
  rw [invBlock_fst st inv r hr]
  simp

theorem filter_invBlock_ne (st : State) (inv : InvRow) (rc : Nat)
    (h : rc ≠ inv.resource_class_id) :
    (invBlock st inv).filter (fun r => r.1.resource_class_id == rc) = [] := by
  rw [List.filter_eq_nil_iff]
  intro r hr
  rw [invBlock_fst st inv r hr]
  simp
  exact fun hh => h hh.symm

theorem buildRU_congr {rows₁ rows₂ : List (InvRow × Option AllocRow)} (rc : Nat)
    (h : rows₁.filter (fun r => r.1.resource_class_id == rc) =
         rows₂.filter (fun r => r.1.resource_class_id == rc)) :
    buildRU rows₁ rc = buildRU rows₂ rc := by
  unfold buildRU
  rw [h]

theorem buildRU_block (st : State) (inv : InvRow)
    (rows : List (InvRow × Option AllocRow))
    (hrows : rows.filter
        (fun r => r.1.resource_class_id == inv.resource_class_id) =
      invBlock st inv) :
    buildRU rows inv.resource_class_id = summaryOfInv st inv := by
  obtain ⟨r, rs, hb⟩ : ∃ r rs, invBlock st inv = r :: rs := by
    cases h : invBlock st inv with
    | nil => exact absurd h (invBlock_ne_nil st inv)
    | cons r rs => exact ⟨r, rs, rfl⟩
  have hr1 : r.1 = inv := invBlock_fst st inv r (by rw [hb]; exact List.mem_cons_self _ _)
  have hsum := invBlock_used_sum st inv
  unfold buildRU summaryOfInv
  rw [hrows, hb]
  rw [hb] at hsum
  simp only [List.head?_cons, Option.map_some', Option.getD_some, hr1, hsum]

theorem restRows_class_ne (st : State) (inv : InvRow) (invs' : List InvRow)
    (hnotin : inv.resource_class_id ∉ invs'.map InvRow.resource_class_id) :
    ∀ r ∈ invs'.flatMap (invBlock st),
      r.1.resource_class_id ≠ inv.resource_class_id := by
  intro r hr
  rw [List.mem_flatMap] at hr
  obtain ⟨inv', hinv', hrin⟩ := hr
  rw [invBlock_fst st inv' r hrin]
  intro hc
  exact hnotin (hc ▸ List.mem_map_of_mem _ hinv')

theorem bridge_aux (st : State) (invs : List InvRow) :
    ∀ seen : List Nat,
      (invs.map InvRow.resource_class_id).Nodup →
      (∀ i ∈ invs, i.resource_class_id ∉ seen) →
      (firstKeysAux seen
          ((invs.flatMap (invBlock st)).map
            (fun r => r.1.resource_class_id))).map
        (buildRU (invs.flatMap (invBlock st))) =
      invs.map (summaryOfInv st) := by
  induction invs with
  | nil => intro seen _ _; rfl
  | cons inv invs' ih =>
      intro seen hnd hseen
      have hnd' : inv.resource_class_id ∉ invs'.map InvRow.resource_class_id ∧
          (invs'.map InvRow.resource_class_id).Nodup := by
        rw [List.map_cons, List.nodup_cons] at hnd
        exact hnd
      have hblockcls : ∀ k ∈ (invBlock st inv).map
          (fun (r : InvRow × Option AllocRow) => r.1.resource_class_id),
          k = inv.resource_class_id := by
        intro k hk
        rw [List.mem_map] at hk
        obtain ⟨r, hr, rfl⟩ := hk
        rw [invBlock_fst st inv r hr]
      have hblockne : (invBlock st inv).map
          (fun (r : InvRow × Option AllocRow) => r.1.resource_class_id) ≠ [] := by
        intro hh
        exact invBlock_ne_nil st inv (List.map_eq_nil_iff.mp hh)
      have hrestne := restRows_class_ne st inv invs' hnd'.1
      rw [List.flatMap_cons, List.map_append,
        fka_all_eq hblockcls hblockne (hseen inv (List.mem_cons_self _ _)) _,
        List.map_cons]
      congr 1
      · apply buildRU_block st inv
        rw [List.filter_append, filter_invBlock_self,
          List.filter_eq_nil_iff.mpr ?hrest, List.append_nil]
        case hrest =>
          intro r hr
          simp only [beq_iff_eq]
          exact hrestne r hr
      · have hmapeq : ∀ rc ∈ firstKeysAux (inv.resource_class_id :: seen)
            ((invs'.flatMap (invBlock st)).map
              (fun r => r.1.resource_class_id)),
            buildRU (invBlock st inv ++ invs'.flatMap (invBlock st)) rc =
              buildRU (invs'.flatMap (invBlock st)) rc := by
          intro rc hrc
          have hrc' := fka_mem hrc
          rw [List.mem_map] at hrc'
          obtain ⟨r, hr, rfl⟩ := hrc'
          apply buildRU_congr
          rw [List.filter_append,
            filter_invBlock_ne st inv _ (hrestne r hr), List.nil_append]
        rw [List.map_congr_left hmapeq]
        apply ih
        · exact hnd'.2
        · intro i hi
          rw [List.mem_cons]
          push_neg
          constructor
          · intro hc
            exact hnd'.1 (hc ▸ List.mem_map_of_mem _ hi)
          · exact hseen i (List.mem_cons_of_mem _ hi)

theorem get_resource_data_eq_summaries (st : State) (pid : Nat)
    (hnd : ((rpInventories st pid).map InvRow.resource_class_id).Nodup) :
    get_resource_data st pid = (rpInventories st pid).map (summaryOfInv st) := by
  unfold get_resource_data groupedData joinedRows firstKeys
  exact bridge_aux st (rpInventories st pid) [] hnd (by simp)

/-! ## Equation lemmas for the storage operations -/

theorem update_inventory_eq_ok (st : State) (iid : Nat)
    (total reserved min_unit max_unit step_size : Int) (ratio : ℚ)
    (h : ∃ i ∈ st.inventories, i.id = iid) :
    update_inventory_in_db st iid total reserved min_unit max_unit step_size
        ratio =
      .ok { st with inventories := st.inventories.map (fun i =>
        if i.id == iid then
          { i with total := total, reserved := reserved, min_unit := min_unit,
                   max_unit := max_unit, step_size := step_size,
                   allocation_ratio := ratio }
        else i) } := by
  unfold update_inventory_in_db
  rw [if_pos]
  rw [List.any_eq_true]
  obtain ⟨i, hi, hid⟩ := h
  exact ⟨i, hi, by simp [hid]⟩

theorem destroy_inventory_eq_ok (st : State) (iid : Nat)
    (h : ∃ i ∈ st.inventories, i.id = iid) :
    destroy_inventory st iid =
      .ok { st with inventories :=
        st.inventories.filter (fun i => i.id != iid) } := by
  unfold destroy_inventory
  rw [if_pos]
  rw [List.any_eq_true]
  obtain ⟨i, hi, hid⟩ := h
  exact ⟨i, hi, by simp [hid]⟩

/-- The inventory row `create_inventory_row` inserts for a desired
descriptor. -/
def invRowOf (st : State) (pid : Nat) (d : ResourceUse) : InvRow :=
  ⟨st.nextId, pid, d.resource_class, d.total, d.reserved, d.min_unit,
   d.max_unit, d.step_size, d.allocation_ratio⟩

theorem create_inventory_row_eq_ok (st : State) (pid : Nat) (d : ResourceUse)
    (h : ¬ hasInvClass st pid d.resource_class) :
    create_inventory_row st pid d =
      .ok { st with inventories := st.inventories ++ [invRowOf st pid d],
                    nextId := st.nextId + 1 } := by
  unfold create_inventory_row create_inventory
  rw [if_neg]
  · rfl
  · intro hc
    rw [List.any_eq_true] at hc
    obtain ⟨i, hi, hic⟩ := hc
    simp only [Bool.and_eq_true, beq_iff_eq] at hic
    exact h ⟨i, hi, hic.1, hic.2⟩

/-! ## The reconciliation loop invariant -/

/-- The field update `_update_resources` applies to the inventory row
with id `iid` (via `Inventory.save`). -/
def updFn (d : ResourceUse) (iid : Nat) (i : InvRow) : InvRow :=
  if i.id == iid then
    { i with total := d.total, reserved := d.reserved, min_unit := d.min_unit,
             max_unit := d.max_unit, step_size := d.step_size,
             allocation_ratio := d.allocation_ratio }
  else i

theorem updFn_id (d : ResourceUse) (iid : Nat) (i : InvRow) :
    (updFn d iid i).id = i.id := by
  unfold updFn; split <;> rfl

theorem updFn_rp (d : ResourceUse) (iid : Nat) (i : InvRow) :
    (updFn d iid i).resource_provider_id = i.resource_provider_id := by
  unfold updFn; split <;> rfl

theorem updFn_rc (d : ResourceUse) (iid : Nat) (i : InvRow) :
    (updFn d iid i).resource_class_id = i.resource_class_id := by
  unfold updFn; split <;> rfl

theorem update_inventory_eq_ok_d (st : State) (iid : Nat) (d : ResourceUse)
    (h : ∃ i ∈ st.inventories, i.id = iid) :
    update_inventory_in_db st iid d.total d.reserved d.min_unit d.max_unit
        d.step_size d.allocation_ratio =
      .ok { st with inventories := st.inventories.map (updFn d iid) } :=
  update_inventory_eq_ok st iid d.total d.reserved d.min_unit d.max_unit
    d.step_size d.allocation_ratio h

/-- Invariant carried through the `_update_resources` walk, tying the
evolving state `st` to the remaining desired descriptors `ds`, the
remaining existing-resource map `er` of provider `pid` and the pre-read
inventory lookup list `ei` (the reversed storage table: its rows need
not belong to `pid`).  `alive` says each `ei` row whose class is still
in `er` is backed by a live storage row of the same id and class — the
walk only updates fields and appends fresh rows, so ids survive. -/
structure LoopInv (pid : Nat) (st : State) (ds er : List ResourceUse)
    (ei : List InvRow) : Prop where
  wf : InvWF st
  nd_ds : (ds.map ResourceUse.resource_class).Nodup
  nd_er : (er.map ResourceUse.resource_class).Nodup
  sub : ∀ r ∈ er, ∃ i ∈ ei, i.resource_class_id = r.resource_class
  alive : ∀ i ∈ ei, i.resource_class_id ∈ er.map ResourceUse.resource_class →
    ∃ j ∈ st.inventories, j.id = i.id ∧
      j.resource_class_id = i.resource_class_id
  classes : ∀ j ∈ st.inventories, j.resource_provider_id = pid →
    (j.resource_class_id ∈ er.map ResourceUse.resource_class ∨
     j.resource_class_id ∉ ds.map ResourceUse.resource_class)

theorem find?_er_some {er : List ResourceUse} {d cur : ResourceUse}
    (h : er.find? (fun r => r.resource_class == d.resource_class) = some cur) :
    cur ∈ er ∧ cur.resource_class = d.resource_class :=
  ⟨List.mem_of_find?_eq_some h, by
    have := List.find?_some h
    simpa using this⟩

theorem find?_er_none {er : List ResourceUse} {d : ResourceUse}
    (h : er.find? (fun r => r.resource_class == d.resource_class) = none) :
    d.resource_class ∉ er.map ResourceUse.resource_class := by
  intro hc
  rw [List.mem_map] at hc
  obtain ⟨r, hr, hrc⟩ := hc
  have := List.find?_eq_none.mp h r hr
  simp [hrc] at this

theorem find?_ei_some {ei : List InvRow} {rc : Nat} {inv : InvRow}
    (h : ei.find? (fun i => i.resource_class_id == rc) = some inv) :
    inv ∈ ei ∧ inv.resource_class_id = rc :=
  ⟨List.mem_of_find?_eq_some h, by
    have := List.find?_some h
    simpa using this⟩

theorem find?_ei_none {ei : List InvRow} {rc : Nat}
    (h : ei.find? (fun i => i.resource_class_id == rc) = none) :
    rc ∉ ei.map InvRow.resource_class_id := by
  intro hc
  rw [List.mem_map] at hc
  obtain ⟨i, hi, hrc⟩ := hc
  have := List.find?_eq_none.mp h i hi
  simp [hrc] at this

theorem mem_filter_er {er : List ResourceUse} {rc rc' : Nat}
    (h : rc ∈ er.map ResourceUse.resource_class) (hne : rc ≠ rc') :
    rc ∈ (er.filter (fun r => r.resource_class != rc')).map
      ResourceUse.resource_class := by
  rw [List.mem_map] at h
  obtain ⟨r, hr, hrc⟩ := h
  rw [List.mem_map]
  refine ⟨r, List.mem_filter.mpr ⟨hr, ?_⟩, hrc⟩
  simp [hrc, hne]

theorem filter_er_cls_sublist (er : List ResourceUse) (rc' : Nat) :
    ((er.filter (fun r => r.resource_class != rc')).map
        ResourceUse.resource_class).Sublist
      (er.map ResourceUse.resource_class) :=
  List.Sublist.map _ (List.filter_sublist er)

theorem LoopInv_update (pid : Nat) (st : State) (d : ResourceUse)
    (ds er : List ResourceUse) (ei : List InvRow) (iid : Nat)
    (hinv : LoopInv pid st (d :: ds) er ei) :
    LoopInv pid { st with inventories := st.inventories.map (updFn d iid) }
      ds (er.filter (fun r => r.resource_class != d.resource_class)) ei := by
  have hdnotds : d.resource_class ∉ ds.map ResourceUse.resource_class := by
    have := hinv.nd_ds
    rw [List.map_cons, List.nodup_cons] at this
    exact this.1
  have hmapid : (st.inventories.map (updFn d iid)).map InvRow.id =
      st.inventories.map InvRow.id := by
    rw [List.map_map]
    exact List.map_congr_left (fun i _ => updFn_id d iid i)
  have hmappair : (st.inventories.map (updFn d iid)).map
      (fun i => (i.resource_provider_id, i.resource_class_id)) =
      st.inventories.map
        (fun i => (i.resource_provider_id, i.resource_class_id)) := by
    rw [List.map_map]
    refine List.map_congr_left (fun i _ => ?_)
    simp [updFn_rp, updFn_rc]
  refine ⟨⟨?_, ?_, ?_⟩, ?_, ?_, ?_, ?_, ?_⟩
  · rw [hmapid]; exact hinv.wf.1
  · rw [hmappair]; exact hinv.wf.2.1
  · intro i hi
    rw [List.mem_map] at hi
    obtain ⟨j, hj, rfl⟩ := hi
    rw [updFn_id]
    exact hinv.wf.2.2 j hj
  · have := hinv.nd_ds
    rw [List.map_cons, List.nodup_cons] at this
    exact this.2
  · exact (filter_er_cls_sublist er d.resource_class).nodup hinv.nd_er
  · intro r hr
    exact hinv.sub r (List.mem_of_mem_filter hr)
  · intro i hi hic
    have hic' : i.resource_class_id ∈ er.map ResourceUse.resource_class :=
      (filter_er_cls_sublist er d.resource_class).mem hic
    obtain ⟨j, hj, hjid, hjrc⟩ := hinv.alive i hi hic'
    refine ⟨updFn d iid j, List.mem_map_of_mem _ hj, ?_, ?_⟩
    · rw [updFn_id]; exact hjid
    · rw [updFn_rc]; exact hjrc
  · intro j hj hjrp
    rw [List.mem_map] at hj
    obtain ⟨j₀, hj₀, rfl⟩ := hj
    rw [updFn_rp] at hjrp
    rw [updFn_rc]
    rcases hinv.classes j₀ hj₀ hjrp with hin | hout
    · by_cases heq : j₀.resource_class_id = d.resource_class
      · right; rw [heq]; exact hdnotds
      · left; exact mem_filter_er hin heq
    · right
      intro hc
      exact hout (List.mem_cons_of_mem _ hc)

theorem LoopInv_create (pid : Nat) (st : State) (d : ResourceUse)
    (ds er : List ResourceUse) (ei : List InvRow)
    (hinv : LoopInv pid st (d :: ds) er ei)
    (hnotin : d.resource_class ∉ er.map ResourceUse.resource_class) :
    LoopInv pid
      { st with inventories := st.inventories ++ [invRowOf st pid d],
                nextId := st.nextId + 1 }
      ds er ei := by
  have hdnotds : d.resource_class ∉ ds.map ResourceUse.resource_class := by
    have := hinv.nd_ds
    rw [List.map_cons, List.nodup_cons] at this
    exact this.1
  have hfresh : ∀ j ∈ st.inventories, j.id ≠ st.nextId := by
    intro j hj hc
    exact absurd hc (Nat.ne_of_lt (hinv.wf.2.2 j hj))
  refine ⟨⟨?_, ?_, ?_⟩, ?_, hinv.nd_er, hinv.sub, ?_, ?_⟩
  · rw [List.map_append]
    rw [List.nodup_append]
    refine ⟨hinv.wf.1, List.nodup_singleton _, ?_⟩
    intro x hx hy
    rw [List.mem_map] at hx
    obtain ⟨j, hj, rfl⟩ := hx
    simp only [List.map_cons, List.map_nil, List.mem_singleton] at hy
    exact hfresh j hj hy
  · rw [List.map_append]
    rw [List.nodup_append]
    refine ⟨hinv.wf.2.1, List.nodup_singleton _, ?_⟩
    intro x hx hy
    rw [List.mem_map] at hx
    obtain ⟨j, hj, rfl⟩ := hx
    simp only [List.map_cons, List.map_nil, List.mem_singleton] at hy
    have hjrp : j.resource_provider_id = pid := congrArg Prod.fst hy
    have hjrc : j.resource_class_id = d.resource_class :=
      congrArg Prod.snd hy
    rcases hinv.classes j hj hjrp with hin | hout
    · exact hnotin (hjrc ▸ hin)
    · exact hout (hjrc ▸ List.mem_cons_self _ _)
  · intro i hi
    rw [List.mem_append] at hi
    rcases hi with hi | hi
    · exact Nat.lt_succ_of_lt (hinv.wf.2.2 i hi)
    · rw [List.mem_singleton] at hi
      rw [hi]
      exact Nat.lt_succ_self _
  · have := hinv.nd_ds
    rw [List.map_cons, List.nodup_cons] at this
    exact this.2
  · intro i hi hic
    obtain ⟨j, hj, hrest⟩ := hinv.alive i hi hic
    exact ⟨j, List.mem_append_left _ hj, hrest⟩
  · intro j hj hjrp
    rw [List.mem_append] at hj
    rcases hj with hj | hj
    · rcases hinv.classes j hj hjrp with hin | hout
      · left; exact hin
      · right; intro hc; exact hout (List.mem_cons_of_mem _ hc)
    · rw [List.mem_singleton] at hj
      right
      rw [hj]
      exact hdnotds

theorem not_hasInvClass_of_head_miss (pid : Nat) (st : State)
    (d : ResourceUse) (ds er : List ResourceUse) (ei : List InvRow)
    (hinv : LoopInv pid st (d :: ds) er ei)
    (hnotin : d.resource_class ∉ er.map ResourceUse.resource_class) :
    ¬ hasInvClass st pid d.resource_class := by
  rintro ⟨j, hj, hjrp, hjrc⟩
  rcases hinv.classes j hj hjrp with hin | hout
  · exact hnotin (hjrc ▸ hin)
  · exact hout (hjrc ▸ List.mem_cons_self _ _)

theorem alive_of_found (pid : Nat) (st : State) (ds er : List ResourceUse)
    (ei : List InvRow) (rc : Nat) (inv : InvRow)
    (hinv : LoopInv pid st ds er ei)
    (hrc : rc ∈ er.map ResourceUse.resource_class)
    (hfind : ei.find? (fun i => i.resource_class_id == rc) = some inv) :
    ∃ j ∈ st.inventories, j.id = inv.id := by
  obtain ⟨hmem, hcls⟩ := find?_ei_some hfind
  obtain ⟨j, hj, hjid, _⟩ := hinv.alive inv hmem (hcls ▸ hrc)
  exact ⟨j, hj, hjid⟩

theorem hasInvClass_map_updFn (st : State) (d : ResourceUse) (iid : Nat)
    (p rc : Nat) :
    hasInvClass { st with inventories := st.inventories.map (updFn d iid) }
        p rc ↔ hasInvClass st p rc := by
  unfold hasInvClass
  constructor
  · rintro ⟨j, hj, hjrp, hjrc⟩
    rw [List.mem_map] at hj
    obtain ⟨j₀, hj₀, rfl⟩ := hj
    rw [updFn_rp] at hjrp
    rw [updFn_rc] at hjrc
    exact ⟨j₀, hj₀, hjrp, hjrc⟩
  · rintro ⟨j, hj, hjrp, hjrc⟩
    refine ⟨updFn d iid j, List.mem_map_of_mem _ hj, ?_, ?_⟩
    · rw [updFn_rp]; exact hjrp
    · rw [updFn_rc]; exact hjrc

theorem hasInvClass_append_row (st : State) (pid : Nat) (d : ResourceUse)
    (p rc : Nat) :
    hasInvClass
        { st with inventories := st.inventories ++ [invRowOf st pid d],
                  nextId := st.nextId + 1 } p rc ↔
      (hasInvClass st p rc ∨ (p = pid ∧ rc = d.resource_class)) := by
  unfold hasInvClass invRowOf
  constructor
  · rintro ⟨j, hj, hjrp, hjrc⟩
    rw [List.mem_append] at hj
    rcases hj with hj | hj
    · exact Or.inl ⟨j, hj, hjrp, hjrc⟩
    · rw [List.mem_singleton] at hj
      subst hj
      exact Or.inr ⟨hjrp.symm, hjrc.symm⟩
  · rintro (⟨j, hj, hjrp, hjrc⟩ | ⟨rfl, rfl⟩)
    · exact ⟨j, List.mem_append_left _ hj, hjrp, hjrc⟩
    · exact ⟨_, List.mem_append_right _ (List.mem_singleton_self _),
        rfl, rfl⟩

theorem hasInvClass_erase (st : State) (iid : Nat) (j₀ : InvRow)
    (hj₀ : j₀ ∈ st.inventories) (hid : j₀.id = iid)
    (hids : (st.inventories.map InvRow.id).Nodup)
    (hpairs : (st.inventories.map
      (fun i => (i.resource_provider_id, i.resource_class_id))).Nodup)
    (p rc : Nat) :
    hasInvClass
        { st with inventories :=
            st.inventories.filter (fun i => i.id != iid) } p rc ↔
      (hasInvClass st p rc ∧
        ¬(p = j₀.resource_provider_id ∧ rc = j₀.resource_class_id)) := by
  unfold hasInvClass
  constructor
  · rintro ⟨j, hj, hjrp, hjrc⟩
    rw [List.mem_filter] at hj
    obtain ⟨hjmem, hjne⟩ := hj
    refine ⟨⟨j, hjmem, hjrp, hjrc⟩, ?_⟩
    rintro ⟨hp, hrc⟩
    have hpair : (fun i => (i.resource_provider_id, i.resource_class_id)) j =
        (fun i => (i.resource_provider_id, i.resource_class_id)) j₀ := by
      simp only
      rw [hjrp, hjrc, hp, hrc]
    have : j = j₀ :=
      List.inj_on_of_nodup_map hpairs hjmem hj₀ hpair
    rw [this, hid] at hjne
    simp at hjne
  · rintro ⟨⟨j, hj, hjrp, hjrc⟩, hnot⟩
    refine ⟨j, List.mem_filter.mpr ⟨hj, ?_⟩, hjrp, hjrc⟩
    have hne : j ≠ j₀ := by
      intro hc
      exact hnot ⟨hc ▸ hjrp.symm ▸ rfl, hc ▸ hjrc.symm ▸ rfl⟩
    have : j.id ≠ iid := by
      intro hc
      apply hne
      exact List.inj_on_of_nodup_map hids hj hj₀ (by
        show j.id = j₀.id
        rw [hc, hid])
    simp [this]

theorem destroy_inventory_error {st : State} {iid : Nat} {e : Err}
    (h : destroy_inventory st iid = .error e) : e = .notFound := by
  unfold destroy_inventory at h
  split at h
  · cases h
  · injection h with h'
    exact h'.symm

theorem drop_remaining_no_mismatch :
    ∀ (er : List ResourceUse) (st : State) (ei : List InvRow) (rc : Nat),
      drop_remaining st er ei ≠ .error (.capacityMismatch rc) := by
  intro er
  induction er with
  | nil =>
      intro st ei rc h
      cases h
  | cons r rest ih =>
      intro st ei rc h
      unfold drop_remaining at h
      by_cases hused : r.used > 0
      · rw [if_pos (decide_eq_true hused)] at h
        cases h
      · rw [if_neg (by simpa using hused)] at h
        cases hfind : ei.find?
            (fun i => i.resource_class_id == r.resource_class) with
        | none => rw [hfind] at h; cases h
        | some inv =>
            rw [hfind] at h
            have h2 : (match destroy_inventory st inv.id with
                | Except.ok st'' => drop_remaining st'' rest ei
                | Except.error e => Except.error e) =
              Except.error (Err.capacityMismatch rc) := h
            cases hdes : destroy_inventory st inv.id with
            | ok st₂ =>
                rw [hdes] at h2
                exact ih st₂ ei rc h2
            | error e =>
                rw [hdes] at h2
                have he := destroy_inventory_error hdes
                subst he
                exact Err.noConfusion (Except.error.inj h2)

theorem update_inventory_error {st : State} {iid : Nat}
    {total reserved min_unit max_unit step_size : Int} {ratio : ℚ} {e : Err}
    (h : update_inventory_in_db st iid total reserved min_unit max_unit
      step_size ratio = .error e) : e = .notFound := by
  unfold update_inventory_in_db at h
  split at h
  · cases h
  · injection h with h'
    exact h'.symm

theorem create_inventory_row_error {st : State} {pid : Nat}
    {d : ResourceUse} {e : Err}
    (h : create_inventory_row st pid d = .error e) : e = .dbDuplicateEntry := by
  unfold create_inventory_row create_inventory at h
  split at h
  · injection h with h'
    exact h'.symm
  · cases h

theorem mem_filter_er_iff {er : List ResourceUse} {rc rc' : Nat} :
    rc ∈ (er.filter (fun r => r.resource_class != rc')).map
        ResourceUse.resource_class ↔
      (rc ∈ er.map ResourceUse.resource_class ∧ rc ≠ rc') := by
  constructor
  · intro h
    rw [List.mem_map] at h
    obtain ⟨r, hr, rfl⟩ := h
    rw [List.mem_filter] at hr
    refine ⟨List.mem_map_of_mem _ hr.1, ?_⟩
    have := hr.2
    simpa using this
  · rintro ⟨h, hne⟩
    exact mem_filter_er h hne

theorem update_resources_nil (pid : Nat) (st : State)
    (er : List ResourceUse) (ei : List InvRow) :
    update_resources pid st [] er ei = drop_remaining st er ei := rfl

theorem update_resources_cons_found (pid : Nat) (st : State)
    (d : ResourceUse) (ds er : List ResourceUse) (ei : List InvRow)
    (cur : ResourceUse)
    (herf : er.find? (fun r => r.resource_class == d.resource_class) =
      some cur) :
    update_resources pid st (d :: ds) er ei =
      if Rat.blt (effCap d) ((cur.used : Int) : ℚ) then
        .error (.capacityMismatch d.resource_class)
      else
        match ei.find? (fun i => i.resource_class_id == d.resource_class) with
        | some inv =>
            match update_inventory_in_db st inv.id d.total d.reserved
                d.min_unit d.max_unit d.step_size d.allocation_ratio with
            | .ok st₂ => update_resources pid st₂ ds
                (er.filter (fun r => r.resource_class != d.resource_class)) ei
            | .error e => .error e
        | none =>
            match create_inventory_row st pid d with
            | .ok st₂ => update_resources pid st₂ ds
                (er.filter (fun r => r.resource_class != d.resource_class)) ei
            | .error e => .error e := by
  conv_lhs => unfold update_resources; rw [herf]

theorem update_resources_cons_miss (pid : Nat) (st : State)
    (d : ResourceUse) (ds er : List ResourceUse) (ei : List InvRow)
    (herf : er.find? (fun r => r.resource_class == d.resource_class) =
      none) :
    update_resources pid st (d :: ds) er ei =
      match create_inventory_row st pid d with
      | .ok st₂ => update_resources pid st₂ ds er ei
      | .error e => .error e := by
  conv_lhs => unfold update_resources; rw [herf]

deriving instance DecidableEq for Except

theorem update_resources_violation (pid : Nat) :
    ∀ (ds : List ResourceUse) (st : State) (er : List ResourceUse)
      (ei : List InvRow),
      LoopInv pid st ds er ei →
      (∃ d ∈ ds, ∃ cur ∈ er, cur.resource_class = d.resource_class ∧
        effCap d < ((cur.used : Int) : ℚ)) →
      ∃ d ∈ ds, (∃ cur ∈ er, cur.resource_class = d.resource_class ∧
        effCap d < ((cur.used : Int) : ℚ)) ∧
        update_resources pid st ds er ei =
          .error (.capacityMismatch d.resource_class) := by
  intro ds
  induction ds with
  | nil =>
      intro st er ei _ hviol
      obtain ⟨d, hd, _⟩ := hviol
      exact absurd hd (List.not_mem_nil d)
  | cons d ds ih =>
      intro st er ei hinv hviol
      cases herf : er.find?
          (fun r => r.resource_class == d.resource_class) with
      | some cur =>
          obtain ⟨hcurmem, hcurcls⟩ := find?_er_some herf
          have hdrc_er : d.resource_class ∈
              er.map ResourceUse.resource_class :=
            hcurcls ▸ List.mem_map_of_mem _ hcurmem
          by_cases hcap : effCap d < ((cur.used : Int) : ℚ)
          · refine ⟨d, List.mem_cons_self _ _,
              ⟨cur, hcurmem, hcurcls, hcap⟩, ?_⟩
            rw [update_resources_cons_found pid st d ds er ei cur herf,
              if_pos ((rat_blt_iff _ _).mpr hcap)]
          · obtain ⟨d₀, hd₀, cur₀, hcur₀, hcls₀, hcap₀⟩ := hviol
            have hd₀ds : d₀ ∈ ds := by
              rcases List.mem_cons.mp hd₀ with rfl | h
              · exfalso
                have : cur₀ = cur := by
                  apply List.inj_on_of_nodup_map hinv.nd_er hcur₀ hcurmem
                  show cur₀.resource_class = cur.resource_class
                  rw [hcls₀, hcurcls]
                rw [this] at hcap₀
                exact hcap hcap₀
              · exact h
            have hd₀ne : d₀.resource_class ≠ d.resource_class := by
              have hnd := hinv.nd_ds
              rw [List.map_cons, List.nodup_cons] at hnd
              intro hc
              exact hnd.1 (hc ▸ List.mem_map_of_mem _ hd₀ds)
            cases hfei : ei.find?
                (fun i => i.resource_class_id == d.resource_class) with
            | none =>
                exfalso
                obtain ⟨i, hi, hic⟩ := hinv.sub cur hcurmem
                exact find?_ei_none hfei
                  (by rw [← hcurcls]; exact hic ▸ List.mem_map_of_mem _ hi)
            | some inv =>
                have halive := alive_of_found pid st (d :: ds) er ei
                  d.resource_class inv hinv hdrc_er hfei
                have hinv₂ := LoopInv_update pid st d ds er ei inv.id hinv
                have hcur₀' : cur₀ ∈ er.filter
                    (fun r => r.resource_class != d.resource_class) := by
                  refine List.mem_filter.mpr ⟨hcur₀, ?_⟩
                  simp [hcls₀, hd₀ne]
                obtain ⟨d', hd', hwit', heq'⟩ := ih _ _ ei hinv₂
                  ⟨d₀, hd₀ds, cur₀, hcur₀', hcls₀, hcap₀⟩
                obtain ⟨cur', hcur', hrest'⟩ := hwit'
                refine ⟨d', List.mem_cons_of_mem _ hd',
                  ⟨cur', List.mem_of_mem_filter hcur', hrest'⟩, ?_⟩
                rw [update_resources_cons_found pid st d ds er ei cur herf,
                  if_neg (by
                    intro hc
                    exact hcap ((rat_blt_iff _ _).mp hc)), hfei]
                show (match update_inventory_in_db st inv.id d.total
                    d.reserved d.min_unit d.max_unit d.step_size
                    d.allocation_ratio with
                  | Except.ok st₂ => update_resources pid st₂ ds
                      (er.filter
                        (fun r => r.resource_class != d.resource_class)) ei
                  | Except.error e => Except.error e) = _
                rw [update_inventory_eq_ok_d st inv.id d halive]
                exact heq'
      | none =>
          have hnotin := find?_er_none herf
          obtain ⟨d₀, hd₀, cur₀, hcur₀, hcls₀, hcap₀⟩ := hviol
          have hd₀ds : d₀ ∈ ds := by
            rcases List.mem_cons.mp hd₀ with rfl | h
            · exfalso
              exact hnotin (hcls₀ ▸ List.mem_map_of_mem _ hcur₀)
            · exact h
          have hguard := not_hasInvClass_of_head_miss pid st d ds er ei
            hinv hnotin
          have hinv₂ := LoopInv_create pid st d ds er ei hinv hnotin
          obtain ⟨d', hd', hwit', heq'⟩ := ih _ er ei hinv₂
            ⟨d₀, hd₀ds, cur₀, hcur₀, hcls₀, hcap₀⟩
          refine ⟨d', List.mem_cons_of_mem _ hd', hwit', ?_⟩
          rw [update_resources_cons_miss pid st d ds er ei herf,
            create_inventory_row_eq_ok st pid d hguard]
          exact heq'

theorem update_resources_mismatch_source (pid : Nat) :
    ∀ (ds : List ResourceUse) (st : State) (er : List ResourceUse)
      (ei : List InvRow) (rc : Nat),
      update_resources pid st ds er ei = .error (.capacityMismatch rc) →
      ∃ d ∈ ds, d.resource_class = rc ∧ ∃ cur ∈ er,
        cur.resource_class = rc ∧ effCap d < ((cur.used : Int) : ℚ) := by
  intro ds
  induction ds with
  | nil =>
      intro st er ei rc h
      rw [update_resources_nil] at h
      exact absurd h (drop_remaining_no_mismatch er st ei rc)
  | cons d ds ih =>
      intro st er ei rc h
      cases herf : er.find?
          (fun r => r.resource_class == d.resource_class) with
      | some cur =>
          rw [update_resources_cons_found pid st d ds er ei cur herf] at h
          obtain ⟨hcurmem, hcurcls⟩ := find?_er_some herf
          by_cases hcap : Rat.blt (effCap d) ((cur.used : Int) : ℚ) = true
          · rw [if_pos hcap] at h
            injection h with h'
            injection h' with h''
            refine ⟨d, List.mem_cons_self _ _, h'', cur, hcurmem, ?_,
              (rat_blt_iff _ _).mp hcap⟩
            rw [hcurcls, h'']
          · rw [if_neg hcap] at h
            cases hfei : ei.find?
                (fun i => i.resource_class_id == d.resource_class) with
            | some inv =>
                rw [hfei] at h
                have h2 : (match update_inventory_in_db st inv.id d.total
                    d.reserved d.min_unit d.max_unit d.step_size
                    d.allocation_ratio with
                  | Except.ok st₂ => update_resources pid st₂ ds
                      (er.filter
                        (fun r => r.resource_class != d.resource_class)) ei
                  | Except.error e => Except.error e) =
                    Except.error (Err.capacityMismatch rc) := h
                cases hupd : update_inventory_in_db st inv.id d.total
                    d.reserved d.min_unit d.max_unit d.step_size
                    d.allocation_ratio with
                | ok st₂ =>
                    rw [hupd] at h2
                    obtain ⟨d', hd', hcls', cur', hcur', hrest'⟩ :=
                      ih st₂ _ ei rc h2
                    exact ⟨d', List.mem_cons_of_mem _ hd', hcls', cur',
                      List.mem_of_mem_filter hcur', hrest'⟩
                | error e =>
                    rw [hupd] at h2
                    have he := update_inventory_error hupd
                    subst he
                    exact Err.noConfusion (Except.error.inj h2)
            | none =>
                rw [hfei] at h
                have h2 : (match create_inventory_row st pid d with
                  | Except.ok st₂ => update_resources pid st₂ ds
                      (er.filter
                        (fun r => r.resource_class != d.resource_class)) ei
                  | Except.error e => Except.error e) =
                    Except.error (Err.capacityMismatch rc) := h
                cases hcr : create_inventory_row st pid d with
                | ok st₂ =>
                    rw [hcr] at h2
                    obtain ⟨d', hd', hcls', cur', hcur', hrest'⟩ :=
                      ih st₂ _ ei rc h2
                    exact ⟨d', List.mem_cons_of_mem _ hd', hcls', cur',
                      List.mem_of_mem_filter hcur', hrest'⟩
                | error e =>
                    rw [hcr] at h2
                    have he := create_inventory_row_error hcr
                    subst he
                    exact Err.noConfusion (Except.error.inj h2)
      | none =>
          rw [update_resources_cons_miss pid st d ds er ei herf] at h
          cases hcr : create_inventory_row st pid d with
          | ok st₂ =>
              rw [hcr] at h
              obtain ⟨d', hd', hcls', cur', hcur', hrest'⟩ :=
                ih st₂ er ei rc h
              exact ⟨d', List.mem_cons_of_mem _ hd', hcls', cur', hcur',
                hrest'⟩
          | error e =>
              rw [hcr] at h
              have he := create_inventory_row_error hcr
              subst he
              exact Err.noConfusion (Except.error.inj h)

/-! ## The pre-read maps of `ResourceProvider.save` -/

theorem rpInventories_rp (st : State) (pid : Nat) :
    ∀ i ∈ rpInventories st pid, i.resource_provider_id = pid := by
  intro i hi
  have := (List.mem_filter.mp hi).2
  simpa using this

theorem rpInventories_classes_nodup (st : State) (pid : Nat)
    (hpairs : (st.inventories.map
      (fun i => (i.resource_provider_id, i.resource_class_id))).Nodup) :
    ((rpInventories st pid).map InvRow.resource_class_id).Nodup := by
  have h1 : ((rpInventories st pid).map
      (fun i => (i.resource_provider_id, i.resource_class_id))).Nodup :=
    (List.Sublist.map _ (List.filter_sublist _)).nodup hpairs
  have h2 : (rpInventories st pid).map
      (fun i => (i.resource_provider_id, i.resource_class_id)) =
      (rpInventories st pid).map (fun i => (pid, i.resource_class_id)) := by
    refine List.map_congr_left (fun i hi => ?_)
    rw [rpInventories_rp st pid i hi]
  rw [h2] at h1
  have h3 : ((rpInventories st pid).map InvRow.resource_class_id) =
      ((rpInventories st pid).map
        (fun i => (pid, i.resource_class_id))).map Prod.snd := by
    rw [List.map_map]
    rfl
  rw [h3]
  refine h1.map_on ?_
  intro x hx y hy hxy
  rw [List.mem_map] at hx hy
  obtain ⟨i, _, rfl⟩ := hx
  obtain ⟨j, _, rfl⟩ := hy
  rw [Prod.ext_iff]
  exact ⟨rfl, hxy⟩

theorem get_resource_data_classes (st : State) (pid : Nat)
    (hpairs : (st.inventories.map
      (fun i => (i.resource_provider_id, i.resource_class_id))).Nodup) :
    (get_resource_data st pid).map ResourceUse.resource_class =
      (rpInventories st pid).map InvRow.resource_class_id := by
  rw [get_resource_data_eq_summaries st pid
    (rpInventories_classes_nodup st pid hpairs)]
  rw [List.map_map]
  refine List.map_congr_left (fun i _ => ?_)
  rfl

theorem er_entry_used (st : State) (pid : Nat)
    (hpairs : (st.inventories.map
      (fun i => (i.resource_provider_id, i.resource_class_id))).Nodup)
    (cur : ResourceUse) (hcur : cur ∈ get_resource_data st pid) :
    hasInvClass st pid cur.resource_class ∧
      cur.used = sumUsed st pid cur.resource_class := by
  rw [get_resource_data_eq_summaries st pid
    (rpInventories_classes_nodup st pid hpairs)] at hcur
  rw [List.mem_map] at hcur
  obtain ⟨i, hi, rfl⟩ := hcur
  have hrp := rpInventories_rp st pid i hi
  have himem := List.mem_of_mem_filter hi
  constructor
  · exact ⟨i, himem, hrp, rfl⟩
  · show sumUsed st i.resource_provider_id i.resource_class_id = _
    rw [hrp]
    rfl

theorem er_entry_of_class (st : State) (pid : Nat)
    (hpairs : (st.inventories.map
      (fun i => (i.resource_provider_id, i.resource_class_id))).Nodup)
    (rc : Nat) (h : hasInvClass st pid rc) :
    ∃ cur ∈ get_resource_data st pid, cur.resource_class = rc ∧
      cur.used = sumUsed st pid rc := by
  obtain ⟨i, hi, hirp, hirc⟩ := h
  have hi' : i ∈ rpInventories st pid :=
    List.mem_filter.mpr ⟨hi, by simp [hirp]⟩
  refine ⟨summaryOfInv st i, ?_, hirc, ?_⟩
  · rw [get_resource_data_eq_summaries st pid
      (rpInventories_classes_nodup st pid hpairs)]
    exact List.mem_map_of_mem _ hi'
  · show sumUsed st i.resource_provider_id i.resource_class_id = _
    rw [hirp, hirc]

theorem LoopInv_init (st : State) (pid : Nat) (ds : List ResourceUse)
    (hwf : WF st) (hnd : (ds.map ResourceUse.resource_class).Nodup) :
    LoopInv pid st ds (get_resource_data st pid) st.inventories.reverse := by
  have hpairs := hwf.1.2.1
  have hcls := get_resource_data_classes st pid hpairs
  refine ⟨hwf.1, hnd, ?_, ?_, ?_, ?_⟩
  · rw [hcls]
    exact rpInventories_classes_nodup st pid hpairs
  · intro r hr
    obtain ⟨⟨i, hi, hirp, hirc⟩, _⟩ := er_entry_used st pid hpairs r hr
    exact ⟨i, List.mem_reverse.mpr hi, hirc⟩
  · intro i hi _
    exact ⟨i, List.mem_reverse.mp hi, rfl, rfl⟩
  · intro j hj hjrp
    left
    rw [hcls]
    exact List.mem_map_of_mem _ (List.mem_filter.mpr ⟨hj, by simp [hjrp]⟩)

theorem save_resources_eq (st : State) (uuid : String)
    (desired : List ResourceUse) (rp : RpRow)
    (hrp : providerByUuid st uuid = some rp) :
    save_resources st uuid desired =
      update_resources rp.id st desired (get_resource_data st rp.id)
        st.inventories.reverse := by
  unfold save_resources
  rw [hrp]

/-! ## `ResourceProviderList.get_all` -/

/-- The row list of `ResourceProviderList._get_all_from_db`'s query:
resource_providers, outer-joined with compute_nodes ON
(`ComputeNode.uuid == ResourceProvider.uuid` AND
`ResourceProvider.uuid is None` — a constant false, so this join
contributes nothing), outer-joined with the association table on the
provider id, then INNER-joined (`.join`) with aggregates on the
aggregate id.  A provider with no association row therefore yields a
NULL aggregate_id which the inner join eliminates: it produces no row
at all. -/
def get_all_rows (st : State) : List (RpRow × AggRow) :=
  st.providers.flatMap fun rp =>
    st.rp_aggregates.flatMap fun rpa =>
      if rpa.resource_provider_id == rp.id then
        st.aggregates.flatMap fun agg =>
          if agg.id == rpa.aggregate_id then [(rp, agg)] else []
      else []

/-- `ResourceProviderList.get_all`: the query GROUPs BY the association
table's resource_provider_id, which leaves a single (arbitrary — the
first, under SQLite's bare-column semantics) row per provider;
`itertools.groupby` then turns each remaining row into a provider
carrying that one aggregate. -/
def get_all (st : State) : List (RpRow × List AggRow) :=
  (firstKeys ((get_all_rows st).map (fun r => r.1.id))).map fun pid =>
    match (get_all_rows st).find? (fun r => r.1.id == pid) with
    | some (rp, agg) => (rp, [agg])
    | none => (⟨pid, "", none⟩, [])

/-! ## Claim theorems -/

/-- C6: the claim says `save()` with a changed name persists the new
name as a plain update.  The code cannot: `_update_in_db` filters with
`filter_by(id=id)` — the Python builtin `id`, not the `id_` parameter —
so no row matches and `NotFound` is raised for every state, provider and
name.  This theorem evaluates the modelled code: a name-only save always
fails. -/
theorem c6_save_name_never_persists (st : State) (pid : Nat) (n : String) :
    save_name st pid n = .error .notFound := by
  unfold save_name update_in_db
  simp

def c5_state : State :=
  { providers := [⟨1, "u1", some "alpha"⟩, ⟨2, "u2", some "beta"⟩],
    inventories := [], allocations := [],
    aggregates := [⟨10, "agg"⟩], rp_aggregates := [⟨1, 10⟩], nextId := 11 }

/-- C5: the claim says `get_all()` returns every persisted provider,
including those with an empty aggregate set.  In the modelled query the
final join with the aggregates table is an INNER join, so provider "u2"
(which has no grouping-tag association) is dropped: storage holds two
providers but `get_all` returns only "u1". -/
theorem c5_get_all_omits_aggregateless_provider :
    (∃ p ∈ c5_state.providers, p.uuid = "u2") ∧
      (get_all c5_state).map (fun r => r.1.uuid) = ["u1"] := by decide

theorem find?_append_of_none {α : Type} {l₁ l₂ : List α} {p : α → Bool}
    (h : ∀ x ∈ l₁, ¬ p x = true) : (l₁ ++ l₂).find? p = l₂.find? p := by
  induction l₁ with
  | nil => rfl
  | cons x xs ih =>
      rw [List.cons_append, List.find?_cons]
      rw [Bool.eq_false_iff.mpr (h x (List.mem_cons_self _ _))]
      exact ih (fun y hy => h y (List.mem_cons_of_mem _ hy))

theorem create_rp_no_aggs_eq (st : State) (uuid : String)
    (name : Option String)
    (hdup : st.providers.any (fun p => p.uuid == uuid) = false) :
    create_resource_provider st uuid name [] =
      .ok ({ st with providers := st.providers ++ [⟨st.nextId, uuid, name⟩],
                     rp_aggregates := st.rp_aggregates ++ [],
                     nextId := st.nextId + 1 },
           ⟨st.nextId, uuid, name⟩) := by
  unfold create_resource_provider
  rw [if_neg (by simp [hdup])]
  rw [if_pos]
  · rfl
  · exact ⟨by simp, by simp⟩

/-- C8: creating a provider with uuid U and name N and then reading it
back with `get_by_uuid U` returns the created row itself: same name,
same uuid, and the numeric key assigned at creation (the sequence value
at the time of the insert). -/
theorem c8_round_trip (st : State) (uuid : String) (name : Option String)
    (st' : State) (rp : RpRow)
    (h : create_resource_provider st uuid name [] = .ok (st', rp)) :
    get_by_uuid st' uuid = .ok rp ∧ rp.uuid = uuid ∧ rp.name = name ∧
      rp.id = st.nextId := by
  by_cases hdup : st.providers.any (fun p => p.uuid == uuid) = true
  · unfold create_resource_provider at h
    rw [if_pos hdup] at h
    cases h
  · rw [create_rp_no_aggs_eq st uuid name
      (Bool.not_eq_true _ |>.mp hdup)] at h
    injection h with h'
    injection h' with h1 h2
    subst h2
    refine ⟨?_, rfl, rfl, rfl⟩
    subst h1
    have hnone : ∀ x ∈ st.providers, ¬ (x.uuid == uuid) = true := by
      intro x hx hc
      rw [List.any_eq_true] at hdup
      exact hdup ⟨x, hx, hc⟩
    have hfind : providerByUuid
        { st with providers := st.providers ++ [⟨st.nextId, uuid, name⟩],
                  rp_aggregates := st.rp_aggregates ++ [],
                  nextId := st.nextId + 1 } uuid =
        some ⟨st.nextId, uuid, name⟩ := by
      unfold providerByUuid
      show (st.providers ++
        [(⟨st.nextId, uuid, name⟩ : RpRow)]).find? (fun p => p.uuid == uuid) = _
      rw [find?_append_of_none hnone]
      simp [List.find?_cons]
    unfold get_by_uuid
    rw [hfind]

/-- C8 witness: a concrete create followed by `get_by_uuid`. -/
theorem c8_round_trip_witness :
    get_by_uuid ⟨[⟨1, "u7", some "n7"⟩], [], [], [], [], 2⟩ "u7" =
      .ok ⟨1, "u7", some "n7"⟩ := by
  have h := c8_round_trip State.empty "u7" (some "n7")
    ⟨[⟨1, "u7", some "n7"⟩], [], [], [], [], 2⟩ ⟨1, "u7", some "n7"⟩
    (by decide)
  exact h.1

/-- C7: duplicate detection distinguishes its cause.  Creating a
provider whose uuid already exists fails with the 'duplicate resource
provider' error (the uuid constraint fires before the association rows
are staged); creating one whose staged grouping-tag list repeats a tag,
or whose staged pair collides with an existing association row, fails
with the 'aggregate already associated' error.  The two errors are
distinct constructors. -/
theorem c7_duplicate_detection (st : State) (uuid : String)
    (name : Option String) (aggs : List Nat) :
    ((∃ p ∈ st.providers, p.uuid = uuid) →
      create_resource_provider st uuid name aggs =
        .error .duplicateProvider) ∧
    ((∀ p ∈ st.providers, p.uuid ≠ uuid) → ¬ aggs.Nodup →
      create_resource_provider st uuid name aggs =
        .error .duplicateAggregate) ∧
    ((∀ p ∈ st.providers, p.uuid ≠ uuid) →
      (∃ a ∈ aggs, (st.nextId, a) ∈ st.rp_aggregates.map rpaPair) →
      create_resource_provider st uuid name aggs =
        .error .duplicateAggregate) := by
  have hfresh : (∀ p ∈ st.providers, p.uuid ≠ uuid) →
      ¬ (st.providers.any (fun p => p.uuid == uuid)) = true := by
    intro hall hc
    rw [List.any_eq_true] at hc
    obtain ⟨p, hp, hpc⟩ := hc
    exact hall p hp (by simpa using hpc)
  refine ⟨?_, ?_, ?_⟩
  · intro hdup
    unfold create_resource_provider
    rw [if_pos]
    rw [List.any_eq_true]
    obtain ⟨p, hp, hpu⟩ := hdup
    exact ⟨p, hp, by simp [hpu]⟩
  · intro hall hnd
    unfold create_resource_provider
    rw [if_neg (hfresh hall), if_neg]
    intro hc
    apply hnd
    have h1 := hc.1
    have h2 : (aggs.map (fun a =>
        (⟨st.nextId, a⟩ : RpaRow))).map rpaPair =
        aggs.map (fun a => (st.nextId, a)) := by
      rw [List.map_map]
      rfl
    rw [h2] at h1
    exact List.Nodup.of_map _ h1
  · intro hall hclash
    unfold create_resource_provider
    rw [if_neg (hfresh hall), if_neg]
    intro hc
    obtain ⟨a, ha, hmem⟩ := hclash
    refine hc.2 (⟨st.nextId, a⟩ : RpaRow) (List.mem_map_of_mem _ ha) ?_
    show (st.nextId, a) ∈ _
    exact hmem

/-- C7 witness: a uuid collision yields the provider-duplicate error; a
repeated staged tag yields the association-duplicate error. -/
theorem c7_duplicate_detection_witness :
    create_resource_provider ⟨[⟨1, "u1", none⟩], [], [], [], [], 2⟩ "u1"
        none [] = .error .duplicateProvider ∧
    create_resource_provider State.empty "u2" none [7, 7] =
      .error .duplicateAggregate := by
  constructor
  · exact (c7_duplicate_detection ⟨[⟨1, "u1", none⟩], [], [], [], [], 2⟩
      "u1" none []).1 ⟨⟨1, "u1", none⟩, by decide, rfl⟩
  · exact (c7_duplicate_detection State.empty "u2" none [7, 7]).2.1
      (by decide) (by decide)

theorem length_filter_lt {α : Type} {l : List α} {p : α → Bool} {x : α}
    (hx : x ∈ l) (hpx : p x = false) :
    (l.filter p).length < l.length := by
  induction l with
  | nil => exact absurd hx (List.not_mem_nil x)
  | cons y ys ih =>
      rw [List.filter_cons]
      rcases List.mem_cons.mp hx with rfl | hx'
      · rw [hpx]
        simp only [Bool.false_eq_true, if_false, List.length_cons]
        exact Nat.lt_succ_of_le (List.length_filter_le p ys)
      · by_cases hpy : p y = true
        · rw [if_pos hpy]
          simp only [List.length_cons]
          exact Nat.succ_lt_succ (ih hx')
        · rw [if_neg hpy, List.length_cons]
          exact Nat.lt_succ_of_lt (ih hx')

/-- The usage check of `destroy()` fires exactly when some resource
class with an Inventory row for the provider has positive summed
usage: allocations in classes without an Inventory row are invisible
to it. -/
theorem destroy_usage_check (st : State) (pid : Nat)
    (hpairs : (st.inventories.map
      (fun i => (i.resource_provider_id, i.resource_class_id))).Nodup) :
    ((get_resource_data st pid).any (fun r => decide (r.used > 0))) = true ↔
      ∃ rc, hasInvClass st pid rc ∧ sumUsed st pid rc > 0 := by
  rw [List.any_eq_true]
  constructor
  · rintro ⟨r, hr, hrused⟩
    obtain ⟨hhas, hused⟩ := er_entry_used st pid hpairs r hr
    exact ⟨r.resource_class, hhas, by rw [← hused]; exact of_decide_eq_true hrused⟩
  · rintro ⟨rc, hhas, hused⟩
    obtain ⟨r, hr, _, hrused⟩ := er_entry_of_class st pid hpairs rc hhas
    exact ⟨r, hr, decide_eq_true (by rw [hrused]; exact hused)⟩

/-- With the provider present and no usage in any inventoried class,
`destroy()` succeeds, deleting exactly the grouping-tag associations,
the Inventory rows and the provider row. -/
theorem destroy_provider_ok (st : State) (pid : Nat) (hwf : WF st)
    (hgood : ∀ rc, hasInvClass st pid rc → ¬ sumUsed st pid rc > 0)
    (hex : ∃ p ∈ st.providers, p.id = pid) :
    destroy_provider st pid = .ok
      { st with providers := st.providers.filter (fun p => p.id != pid),
                rp_aggregates := st.rp_aggregates.filter
                  (fun r => r.resource_provider_id != pid),
                inventories := st.inventories.filter
                  (fun i => i.resource_provider_id != pid) } := by
  unfold destroy_provider
  rw [if_neg (by
    intro hc
    obtain ⟨rc, hhas, hused⟩ := (destroy_usage_check st pid hwf.1.2.1).mp hc
    exact hgood rc hhas hused)]
  obtain ⟨p, hp, hpid⟩ := hex
  rw [if_neg]
  intro hc
  have hlt := @length_filter_lt _ st.providers (fun q => q.id != pid) p hp
    (by show (p.id != pid) = false; rw [hpid]; exact bne_self_eq_false pid)
  have heq2 : (List.filter (fun q => q.id != pid) st.providers).length
      = st.providers.length := eq_of_beq hc
  omega

/-- C4: `destroy()` fails with the in-use error when any resource class
of the provider still has usage (and the state is unchanged, the writer
transaction rolling back); with no usage it atomically deletes the
grouping-tag associations, the inventory rows and the provider row; and
when the provider row is already gone (its inventory rows gone with it)
it fails with `NotFound`, never silently succeeding. -/
theorem c4_destroy_provider (st : State) (pid : Nat) (hwf : WF st) :
    ((∃ rc, hasInvClass st pid rc ∧ sumUsed st pid rc > 0) →
      applyOp st (.destroyProvider pid) = (st, some .inUse)) ∧
    ((∀ rc, hasInvClass st pid rc → ¬ sumUsed st pid rc > 0) →
      (∃ p ∈ st.providers, p.id = pid) →
      destroy_provider st pid = .ok
        { st with providers := st.providers.filter (fun p => p.id != pid),
                  rp_aggregates := st.rp_aggregates.filter
                    (fun r => r.resource_provider_id != pid),
                  inventories := st.inventories.filter
                    (fun i => i.resource_provider_id != pid) }) ∧
    ((∀ rc, hasInvClass st pid rc → ¬ sumUsed st pid rc > 0) →
      (∀ p ∈ st.providers, p.id ≠ pid) →
      destroy_provider st pid = .error .notFound) := by
  have hcheck := destroy_usage_check st pid hwf.1.2.1
  refine ⟨?_, ?_, ?_⟩
  · intro hbad
    have heq : destroy_provider st pid = .error .inUse := by
      unfold destroy_provider
      rw [if_pos (hcheck.mpr hbad)]
    have h2 : applyExcept st (Op.destroyProvider pid) =
        Except.error Err.inUse := heq
    unfold applyOp
    rw [h2]
  · intro hgood hex
    exact destroy_provider_ok st pid hwf hgood hex
  · intro hgood hnone
    unfold destroy_provider
    rw [if_neg (by
      intro hc
      obtain ⟨rc, hhas, hused⟩ := hcheck.mp hc
      exact hgood rc hhas hused)]
    have hfe : st.providers.filter (fun p => p.id != pid) = st.providers :=
      List.filter_eq_self.mpr (fun p hp => bne_iff_ne.mpr (hnone p hp))
    rw [if_pos (by rw [hfe]; simp)]

/-- C4 witness: with usage the destroy fails in-use leaving the state
unchanged; after clearing usage it succeeds and deletes the provider's
rows; on an empty store it fails `NotFound`. -/
theorem c4_destroy_provider_witness :
    applyOp ⟨[⟨1, "u1", none⟩], [⟨2, 1, RC_DISK_GB, 10, 0, 1, 8, 1, 1⟩],
        [⟨3, 1, RC_DISK_GB, "c1", 4⟩], [], [], 4⟩ (.destroyProvider 1) =
      (⟨[⟨1, "u1", none⟩], [⟨2, 1, RC_DISK_GB, 10, 0, 1, 8, 1, 1⟩],
        [⟨3, 1, RC_DISK_GB, "c1", 4⟩], [], [], 4⟩, some .inUse) ∧
    destroy_provider ⟨[⟨1, "u1", none⟩],
        [⟨2, 1, RC_DISK_GB, 10, 0, 1, 8, 1, 1⟩], [], [⟨9, "agg"⟩],
        [⟨1, 9⟩], 4⟩ 1 =
      .ok ⟨[], [], [], [⟨9, "agg"⟩], [], 4⟩ ∧
    destroy_provider State.empty 1 = .error .notFound := by
  refine ⟨?_, ?_, ?_⟩
  · exact (c4_destroy_provider _ 1 (by decide)).1
      ⟨RC_DISK_GB, ⟨⟨2, 1, RC_DISK_GB, 10, 0, 1, 8, 1, 1⟩, by decide,
        rfl, rfl⟩, by decide⟩
  · exact (c4_destroy_provider _ 1 (by decide)).2.1
      (fun rc _ => by simp [sumUsed, State.empty])
      ⟨⟨1, "u1", none⟩, by decide, rfl⟩
  · exact (c4_destroy_provider State.empty 1 (by decide)).2.2
      (fun rc _ => by simp [sumUsed, State.empty]) (by decide)

/-- C10: `destroy()` never touches the Allocation table — a successful
destroy leaves it exactly as it was; and an Allocation row in a resource
class with no Inventory row for the provider is invisible to the usage
check, so it neither blocks the destroy (which succeeds whenever the
provider exists and the inventoried classes are unused) nor is removed
by it: it survives as an orphan. -/
theorem c10_destroy_allocations_untouched :
    (∀ st pid st', destroy_provider st pid = .ok st' →
      st'.allocations = st.allocations) ∧
    (∀ st pid (a : AllocRow), WF st →
      (∃ p ∈ st.providers, p.id = pid) →
      (∀ rc, hasInvClass st pid rc → ¬ sumUsed st pid rc > 0) →
      a ∈ st.allocations → a.resource_provider_id = pid →
      ¬ hasInvClass st pid a.resource_class_id →
      ∃ st', destroy_provider st pid = .ok st' ∧ a ∈ st'.allocations) := by
  constructor
  · intro st pid st' h
    unfold destroy_provider at h
    by_cases h1 : ((get_resource_data st pid).any
        (fun r => decide (r.used > 0))) = true
    · rw [if_pos h1] at h
      exact absurd h (by simp)
    · rw [if_neg h1] at h
      by_cases h2 : ((st.providers.filter (fun p => p.id != pid)).length ==
          st.providers.length) = true
      · rw [if_pos h2] at h
        exact absurd h (by simp)
      · rw [if_neg h2] at h
        cases h
        rfl
  · intro st pid a hwf hex hgood ha hapid hnoinv
    exact ⟨_, destroy_provider_ok st pid hwf hgood hex, ha⟩

/-- C10 witness: destroying a provider whose only inventory (DISK_GB) is
unused succeeds even though an orphaned VCPU allocation with `used = 7`
exists; the orphan row survives the destroy. -/
theorem c10_destroy_allocations_untouched_witness :
    ∃ st', destroy_provider ⟨[⟨1, "u1", none⟩],
        [⟨2, 1, RC_DISK_GB, 10, 0, 1, 8, 1, 1⟩],
        [⟨3, 1, RC_VCPU, "c1", 7⟩], [], [], 4⟩ 1 = .ok st' ∧
      (⟨3, 1, RC_VCPU, "c1", 7⟩ : AllocRow) ∈ st'.allocations := by
  exact c10_destroy_allocations_untouched.2 _ 1 ⟨3, 1, RC_VCPU, "c1", 7⟩
    (by decide) ⟨⟨1, "u1", none⟩, by decide, rfl⟩
    (fun rc h => by
      obtain ⟨i, hi, hp, hrc⟩ := h
      rw [List.mem_singleton] at hi
      subst hi
      subst hrc
      decide)
    (by decide) rfl (by decide)

def c9_state : State :=
  ⟨[⟨1, "u1", none⟩], [⟨2, 1, RC_DISK_GB, 3, 0, 1, 100, 1, mkRat 1 2⟩],
   [], [], [], 3⟩

/-- C9 counterexample: an inventory of total 3, reserved 0 and allocation
ratio 1/2 with no allocations has effective capacity 3/2, but the view's
`available` is `int(3/2) = 1`, not effective capacity minus `used`:
Python's `int()` truncates the product. -/
theorem c9_available_not_exact :
    ∃ r ∈ get_resource_data c9_state 1,
      (r.available : ℚ) ≠ effCap r - (r.used : ℚ) := by
  refine ⟨⟨RC_DISK_GB, 3, 0, 1, 100, 1, mkRat 1 2, 0⟩, by decide, ?_⟩
  have h1 : (⟨RC_DISK_GB, 3, 0, 1, 100, 1, mkRat 1 2, 0⟩ :
      ResourceUse).available = 1 := by decide
  have h2 : effCap ⟨RC_DISK_GB, 3, 0, 1, 100, 1, mkRat 1 2, 0⟩ =
      mkRat 3 2 := by decide
  rw [h1, h2, Rat.mkRat_eq_div]
  push_cast
  norm_num

/-- C9 (amended): the resources view holds one usage summary per Inventory
row of the provider, in table order — capacity fields copied from the row
and `used` the sum of the matching Allocation rows' `used` (zero when
there are none, the join being an outer one) — and each entry's
`available` is effective capacity minus `used` truncated to an integer
by Python's `int()`, not the exact difference. -/
theorem c9_resources_view (st : State) (pid : Nat) (hwf : WF st) :
    get_resource_data st pid =
      (rpInventories st pid).map (summaryOfInv st) ∧
    (∀ inv ∈ rpInventories st pid,
      summaryOfInv st inv =
        { resource_class := inv.resource_class_id
          total := inv.total
          reserved := inv.reserved
          min_unit := inv.min_unit
          max_unit := inv.max_unit
          step_size := inv.step_size
          allocation_ratio := inv.allocation_ratio
          used := sumUsed st pid inv.resource_class_id }) ∧
    (∀ r ∈ get_resource_data st pid,
      r.available = pyInt (effCap r - (r.used : ℚ))) := by
  refine ⟨get_resource_data_eq_summaries st pid
    (rpInventories_classes_nodup st pid hwf.1.2.1), ?_, ?_⟩
  · intro inv hinv
    unfold summaryOfInv
    rw [rpInventories_rp st pid inv hinv]
  · intro r hr
    rw [ResourceUse.available_eq, effCap_eq]

/-- C9 witness: on a provider with a half-ratio disk inventory and one
allocation of 1, the view is the single summary with `used = 1` and
`available = int(3/2 - 1) = 0`. -/
theorem c9_resources_view_witness :
    get_resource_data ⟨[⟨1, "u1", none⟩],
        [⟨2, 1, RC_DISK_GB, 3, 0, 1, 100, 1, mkRat 1 2⟩],
        [⟨3, 1, RC_DISK_GB, "c1", 1⟩], [], [], 4⟩ 1 =
      [⟨RC_DISK_GB, 3, 0, 1, 100, 1, mkRat 1 2, 1⟩] ∧
    (⟨RC_DISK_GB, 3, 0, 1, 100, 1, mkRat 1 2, 1⟩ :
      ResourceUse).available = 0 := by
  constructor
  · have h := (c9_resources_view ⟨[⟨1, "u1", none⟩],
        [⟨2, 1, RC_DISK_GB, 3, 0, 1, 100, 1, mkRat 1 2⟩],
        [⟨3, 1, RC_DISK_GB, "c1", 1⟩], [], [], 4⟩ 1 (by decide)).1
    rw [h]
    decide
  · decide

def c1_ops : List Op :=
  [.createProvider "u1" (some "p1") [],
   .createInventory 1 RC_DISK_GB 1 0 1 8 1 1,
   .createAllocation 1 RC_DISK_GB "c1" 5]

/-- C1 counterexample: creating a provider, a DISK_GB inventory of
effective capacity 1 and then an allocation of `used = 5` all succeed,
yet the final state breaks the capacity invariant: `Allocation.create`
never consults the inventory. -/
theorem c1_capacity_invariant_fails :
    ¬ ∀ (ops : List Op) (st' : State),
        runOps State.empty ops = Except.ok st' → capacityInvariant st' := by
  intro h
  exact absurd (h c1_ops ⟨[⟨1, "u1", some "p1"⟩],
      [⟨2, 1, RC_DISK_GB, 1, 0, 1, 8, 1, 1⟩],
      [⟨3, 1, RC_DISK_GB, "c1", 5⟩], [], [], 4⟩ (by decide)) (by decide)

/-- C1 (amended): the capacity bound is enforced only on the
resource-set save path — a successful save leaves no desired class whose
pre-read usage exceeds the descriptor's effective capacity — while
`Allocation.create` inserts its row unconditionally, with no capacity
check at all, so over-capacity allocations commit without error. -/
theorem c1_capacity_enforced_only_by_save (st : State) (uuid : String)
    (desired : List ResourceUse) (rp : RpRow) (st' : State)
    (hwf : WF st) (hnd : (desired.map ResourceUse.resource_class).Nodup)
    (hrp : providerByUuid st uuid = some rp)
    (hok : save_resources st uuid desired = .ok st') :
    (∀ d ∈ desired, ∀ cur ∈ get_resource_data st rp.id,
      cur.resource_class = d.resource_class →
        ((cur.used : Int) : ℚ) ≤ effCap d) ∧
    (∀ pid rc consumer used, ∃ st₂ row,
      create_allocation st pid rc consumer used = .ok (st₂, row) ∧
      st₂.allocations = st.allocations ++ [row] ∧ row.used = used ∧
      row.resource_provider_id = pid ∧ row.resource_class_id = rc) := by
  constructor
  · intro d hd cur hcur hcls
    by_contra hlt
    push_neg at hlt
    have hinv := LoopInv_init st rp.id desired hwf hnd
    obtain ⟨d', hd', _, heq⟩ := update_resources_violation rp.id desired st
      (get_resource_data st rp.id) st.inventories.reverse hinv
      ⟨d, hd, cur, hcur, hcls, hlt⟩
    rw [save_resources_eq st uuid desired rp hrp, heq] at hok
    exact absurd hok (by simp)
  · exact fun pid rc consumer used => ⟨_, _, rfl, rfl, rfl, rfl, rfl⟩

/-- C1 amended witness: a successful save that doubles the DISK_GB total
certifies that the pre-read usage 4 is within the new effective
capacity 20. -/
theorem c1_capacity_enforced_only_by_save_witness :
    ((4 : Int) : ℚ) ≤ effCap ⟨RC_DISK_GB, 20, 0, 1, 8, 1, (1 : ℚ), 0⟩ := by
  have h := (c1_capacity_enforced_only_by_save
    ⟨[⟨1, "u1", none⟩], [⟨2, 1, RC_DISK_GB, 10, 0, 1, 8, 1, 1⟩],
      [⟨3, 1, RC_DISK_GB, "c1", 4⟩], [], [], 4⟩ "u1"
    [⟨RC_DISK_GB, 20, 0, 1, 8, 1, (1 : ℚ), 0⟩] ⟨1, "u1", none⟩
    ⟨[⟨1, "u1", none⟩], [⟨2, 1, RC_DISK_GB, 20, 0, 1, 8, 1, 1⟩],
      [⟨3, 1, RC_DISK_GB, "c1", 4⟩], [], [], 4⟩
    (by decide) (by decide) (by decide) (by decide)).1
  exact h ⟨RC_DISK_GB, 20, 0, 1, 8, 1, (1 : ℚ), 0⟩ (by decide)
    ⟨RC_DISK_GB, 10, 0, 1, 8, 1, (1 : ℚ), 4⟩ (by decide) rfl

/-- C2: with a violating desired descriptor the whole resource-set save
fails with the capacity-conflict error naming a violating desired class
— the statement carries the violation witness: the named class's current
usage exceeds that descriptor's effective capacity — and the writer
transaction leaves the state, its Inventory rows included, exactly as
before the call; with no violating desired descriptor the save never
raises a capacity conflict for any class. -/
theorem c2_capacity_conflict (st : State) (uuid : String)
    (desired : List ResourceUse) (rp : RpRow)
    (hwf : WF st) (hnd : (desired.map ResourceUse.resource_class).Nodup)
    (hrp : providerByUuid st uuid = some rp) :
    ((∃ d ∈ desired, ∃ cur ∈ get_resource_data st rp.id,
        cur.resource_class = d.resource_class ∧
        effCap d < ((cur.used : Int) : ℚ)) →
      ∃ d ∈ desired, (∃ cur ∈ get_resource_data st rp.id,
          cur.resource_class = d.resource_class ∧
          effCap d < ((cur.used : Int) : ℚ)) ∧
        applyOp st (.saveResources uuid desired) =
          (st, some (.capacityMismatch d.resource_class))) ∧
    ((∀ d ∈ desired, ∀ cur ∈ get_resource_data st rp.id,
        cur.resource_class = d.resource_class →
          ¬ effCap d < ((cur.used : Int) : ℚ)) →
      ∀ rc, (applyOp st (.saveResources uuid desired)).2 ≠
        some (.capacityMismatch rc)) := by
  constructor
  · intro hviol
    have hinv := LoopInv_init st rp.id desired hwf hnd
    obtain ⟨d, hd, hv, heq⟩ := update_resources_violation rp.id desired st
      (get_resource_data st rp.id) st.inventories.reverse hinv hviol
    refine ⟨d, hd, hv, ?_⟩
    have he : applyExcept st (.saveResources uuid desired) =
        .error (.capacityMismatch d.resource_class) := by
      show save_resources st uuid desired = _
      rw [save_resources_eq st uuid desired rp hrp, heq]
    unfold applyOp
    rw [he]
  · intro hgood rc hc
    unfold applyOp at hc
    cases hae : applyExcept st (.saveResources uuid desired) with
    | ok st₂ =>
        rw [hae] at hc
        simp at hc
    | error e =>
        rw [hae] at hc
        simp only [Option.some.injEq] at hc
        subst hc
        have hs : save_resources st uuid desired =
            .error (.capacityMismatch rc) := hae
        rw [save_resources_eq st uuid desired rp hrp] at hs
        obtain ⟨d, hd, hdrc, cur, hcur, hcls, hlt⟩ :=
          update_resources_mismatch_source rp.id desired st
            (get_resource_data st rp.id) st.inventories.reverse rc hs
        exact hgood d hd cur hcur (hcls.trans hdrc.symm) hlt

/-- C2 witness: shrinking a DISK_GB inventory of usage 4 to effective
capacity 3 fails with the capacity conflict naming DISK_GB — the named
class's usage 4 exceeds the desired effective capacity 3 — and leaves
the state untouched. -/
theorem c2_capacity_conflict_witness :
    ∃ d ∈ [(⟨RC_DISK_GB, 3, 0, 1, 8, 1, (1 : ℚ), 0⟩ : ResourceUse)],
      (∃ cur ∈ get_resource_data ⟨[⟨1, "u1", none⟩],
          [⟨2, 1, RC_DISK_GB, 10, 0, 1, 8, 1, 1⟩],
          [⟨3, 1, RC_DISK_GB, "c1", 4⟩], [], [], 4⟩ 1,
        cur.resource_class = d.resource_class ∧
        effCap d < ((cur.used : Int) : ℚ)) ∧
      applyOp ⟨[⟨1, "u1", none⟩], [⟨2, 1, RC_DISK_GB, 10, 0, 1, 8, 1, 1⟩],
          [⟨3, 1, RC_DISK_GB, "c1", 4⟩], [], [], 4⟩
        (.saveResources "u1" [⟨RC_DISK_GB, 3, 0, 1, 8, 1, (1 : ℚ), 0⟩]) =
      (⟨[⟨1, "u1", none⟩], [⟨2, 1, RC_DISK_GB, 10, 0, 1, 8, 1, 1⟩],
          [⟨3, 1, RC_DISK_GB, "c1", 4⟩], [], [], 4⟩,
        some (.capacityMismatch d.resource_class)) := by
  exact (c2_capacity_conflict _ "u1" _ ⟨1, "u1", none⟩ (by decide) (by decide)
      (by decide)).1
    ⟨⟨RC_DISK_GB, 3, 0, 1, 8, 1, (1 : ℚ), 0⟩, by decide,
      ⟨RC_DISK_GB, 10, 0, 1, 8, 1, (1 : ℚ), 4⟩, by decide, rfl, by decide⟩

def c3_state : State :=
  ⟨[⟨1, "u1", none⟩, ⟨2, "u2", none⟩],
   [⟨3, 1, RC_DISK_GB, 10, 0, 1, 8, 1, 1⟩,
    ⟨4, 2, RC_DISK_GB, 20, 0, 1, 8, 1, 1⟩],
   [], [], [], 5⟩

/-- C3: the claim says a successful resource-set save leaves the provider
with Inventory rows for exactly the desired resource classes.  The code
cannot guarantee it: the `existing_inventories` pre-read returns every
Inventory row in storage (its query filters `ResourceProvider.uuid`
without joining that table), keyed by class with the last row winning.
With two providers holding DISK_GB (provider 2's row later in table
order), saving `[MEMORY_MB]` on provider "u1" succeeds — yet provider 1
STILL has its DISK_GB row (the drop loop destroyed provider 2's row
instead), and provider 2's inventory is gone. -/
theorem c3_set_replace_fails_cross_provider :
    ∃ st', save_resources c3_state "u1"
        [⟨RC_MEMORY_MB, 16, 0, 1, 8, 1, (1 : ℚ), 0⟩] = .ok st' ∧
      hasInvClass st' 1 RC_DISK_GB ∧
      RC_DISK_GB ∉ [RC_MEMORY_MB] ∧
      ¬ hasInvClass st' 2 RC_DISK_GB := by
  refine ⟨⟨[⟨1, "u1", none⟩, ⟨2, "u2", none⟩],
    [⟨3, 1, RC_DISK_GB, 10, 0, 1, 8, 1, 1⟩,
     ⟨5, 1, RC_MEMORY_MB, 16, 0, 1, 8, 1, 1⟩],
    [], [], [], 6⟩, ?_, ?_, ?_, ?_⟩
  · decide
  · decide
  · decide
  · decide
